import Mathlib

/-!
Shallow embedding of the board-simulation engine of the candy-blitz repository
(src/utils/gameLogic.ts, second revision in the file, which is the one imported
by src/components/GameBoard.tsx), together with theorems checking the frozen
claims about it.

Modelling conventions:
* A JS `(Candy | null)[][]` grid is a `List (List (Option Candy))`.
* Reading `board[r][c]` is `getCell`: an out-of-range JS read yields
  `undefined`, whose `?.type` comparison with a type is `false`; here an
  out-of-range `List.getD` read yields `none`, whose `Option.map Candy.type`
  is `none` and never equals `some t`.  Writing out of range is a `List.set`
  no-op; every verified call writes in bounds.
* `Math.random()` draws are modelled by an explicit stream `sigma : Nat → Nat`
  together with a running draw counter; `Math.floor(Math.random() * len)` at
  draw number `k` becomes `sigma k % len`, which reaches exactly the indices
  `0 .. len-1`.
* The `id` string of a tile (built from `Date.now()` and `Math.random()`) is
  an opaque animation key that no engine function ever reads; it is omitted
  from the `Candy` structure.
-/

/-- The six tile variants of `CandyType` in `types/game.ts`. -/
inductive CandyType where
  | red | blue | green | yellow | purple | orange
deriving DecidableEq, Repr

/-- A tile, mirroring `interface Candy` (minus the opaque `id` string). -/
structure Candy where
  type : CandyType
  row : Nat
  col : Nat
  isMatched : Bool
  isFalling : Bool
deriving DecidableEq, Repr

/-- A board coordinate, mirroring `interface Position`. -/
structure Position where
  row : Nat
  col : Nat
deriving DecidableEq, Repr

/-- The grid type `(Candy | null)[][]`. -/
abbrev Board := List (List (Option Candy))

/-- The fixed ordered palette `CANDY_TYPES`. -/
def CANDY_TYPES : List CandyType :=
  [.red, .blue, .green, .yellow, .purple, .orange]

/-- Reading `board[r][c]`; out of range gives `none` (JS: `undefined`/`null`). -/
def getCell (b : Board) (r c : Nat) : Option Candy :=
  (b.getD r []).getD c none

/-- The type stored at a cell, if the cell is occupied. -/
def cellType (b : Board) (r c : Nat) : Option CandyType :=
  (getCell b r c).map Candy.type

/-- Writing `board[r][c] = v` functionally; out of range is a no-op. -/
def setCell (b : Board) (r c : Nat) (v : Option Candy) : Board :=
  b.set r ((b.getD r []).set c v)

/-- The level-scaled palette slice
`CANDY_TYPES.slice(0, Math.min(4 + Math.floor(level / 10), CANDY_TYPES.length))`
used by `createCandy`. -/
def availableTypes (level : Nat) : List CandyType :=
  CANDY_TYPES.take (min (4 + level / 10) CANDY_TYPES.length)

/-- The tile factory `createCandy(row, col, level)`; `draw` is the value of
the `Math.random()` stream for this call, so the selected index
`Math.floor(Math.random() * availableTypes.length)` is `draw % length`. -/
def createCandy (draw : Nat) (row col level : Nat) : Candy :=
  let a := availableTypes level
  { type := a.getD (draw % a.length) .red
    row := row
    col := col
    isMatched := false
    isFalling := false }

/-- The step function `getBoardSize(level)` mapping a level to `(rows, cols)`. -/
def getBoardSize (level : Nat) : Nat × Nat :=
  if level ≤ 10 then (4, 4)
  else if level ≤ 30 then (5, 5)
  else if level ≤ 60 then (6, 6)
  else if level ≤ 100 then (7, 7)
  else if level ≤ 200 then (8, 8)
  else if level ≤ 400 then (9, 9)
  else if level ≤ 700 then (10, 10)
  else (11, 11)

/-- Adjacency test `areAdjacent(pos1, pos2)`:
`|Δrow| = 1 ∧ Δcol = 0` or `Δrow = 0 ∧ |Δcol| = 1`. -/
def areAdjacent (p1 p2 : Position) : Bool :=
  let rowDiff := ((p1.row : Int) - p2.row).natAbs
  let colDiff := ((p1.col : Int) - p2.col).natAbs
  (rowDiff == 1 && colDiff == 0) || (rowDiff == 0 && colDiff == 1)

/-- Coordinate rewrite applied by `swapCandies` to a (possibly null) moved
cell: `if (cell) { cell.row = r; cell.col = c }`. -/
def updatePos (oc : Option Candy) (r c : Nat) : Option Candy :=
  oc.map fun cd => { cd with row := r, col := c }

/-- The swap `swapCandies(board, pos1, pos2)`: the two cells are exchanged and
the row/col fields of the moved tiles are rewritten to their new cells. -/
def swapCandies (b : Board) (p1 p2 : Position) : Board :=
  setCell
    (setCell b p1.row p1.col
      (updatePos (getCell b p2.row p2.col) p1.row p1.col))
    p2.row p2.col (updatePos (getCell b p1.row p1.col) p2.row p2.col)

/-- Horizontal run scan to the right, exactly the JS loop
`while (checkCol < bound && board[r][checkCol]?.type === t) checkCol++`;
the fuel argument is `bound - i`. -/
def hRunFromAux (b : Board) (r : Nat) (t : CandyType) : Nat → Nat → Nat
  | _, 0 => 0
  | i, fuel + 1 =>
    if cellType b r i = some t then hRunFromAux b r t (i + 1) fuel + 1 else 0

/-- Number of consecutive cells of type `t` in row `r` starting at column `i`,
scanning while the column is `< bound`. -/
def hRunFrom (b : Board) (r : Nat) (t : CandyType) (bound i : Nat) : Nat :=
  hRunFromAux b r t i (bound - i)

/-- Vertical run scan downward, exactly the JS loop
`while (checkRow < bound && board[checkRow][c]?.type === t) checkRow++`. -/
def vRunFromAux (b : Board) (c : Nat) (t : CandyType) : Nat → Nat → Nat
  | _, 0 => 0
  | i, fuel + 1 =>
    if cellType b i c = some t then vRunFromAux b c t (i + 1) fuel + 1 else 0

/-- Number of consecutive cells of type `t` in column `c` starting at row `i`,
scanning while the row is `< bound`. -/
def vRunFrom (b : Board) (c : Nat) (t : CandyType) (bound i : Nat) : Nat :=
  vRunFromAux b c t i (bound - i)

/-- Leftward run scan: number of consecutive cells of type `t` at columns
`col-1, col-2, ...` of row `r` (the JS loop scanning `checkCol--` from
`col - 1` down to `0`). -/
def hRunLeft (b : Board) (r : Nat) (t : CandyType) : Nat → Nat
  | 0 => 0
  | c + 1 => if cellType b r c = some t then hRunLeft b r t c + 1 else 0

/-- Upward run scan: number of consecutive cells of type `t` at rows
`row-1, row-2, ...` of column `c`. -/
def vRunUp (b : Board) (c : Nat) (t : CandyType) : Nat → Nat
  | 0 => 0
  | r + 1 => if cellType b r c = some t then vRunUp b c t r + 1 else 0

/-- The generator helper `checkWouldCreateMatch(board, candy, row, col)`:
would placing `candy` complete a horizontal or vertical run of length ≥ 3?
The rightward scan is bounded by `board[row].length` and the downward scan by
`board.length`, exactly as in the source (during generation those bounds stop
both scans immediately, so only the left/up runs matter there). -/
def checkWouldCreateMatch (b : Board) (candy : Candy) (row col : Nat) : Bool :=
  if 3 ≤ 1 + hRunLeft b row candy.type col +
      hRunFrom b row candy.type (b.getD row []).length (col + 1) then true
  else
    decide (3 ≤ 1 + vRunUp b col candy.type row +
      vRunFrom b col candy.type b.length (row + 1))

/-- Insertion into the match set: JS `matches.add` on the string key
`row + "-" + col` (keys collide exactly when the positions are equal, and the
final `Array.from` keeps first-insertion order). -/
def addPos (acc : List Position) (p : Position) : List Position :=
  if p ∈ acc then acc else acc ++ [p]

/-- Adding a whole window's positions to the match set, in order. -/
def addPositions (acc : List Position) (ps : List Position) : List Position :=
  ps.foldl addPos acc

/-- One anchor of the horizontal scan of `findMatches`: if the three cells at
columns `c, c+1, c+2` of row `r` are occupied with equal types, their
positions plus the forward extension of the run (bounded by `cols`). -/
def hWindow (b : Board) (cols r c : Nat) : List Position :=
  match cellType b r c with
  | none => []
  | some t =>
    if cellType b r (c + 1) = some t ∧ cellType b r (c + 2) = some t then
      ⟨r, c⟩ :: ⟨r, c + 1⟩ :: ⟨r, c + 2⟩ ::
        (List.range (hRunFrom b r t cols (c + 3))).map fun i => ⟨r, c + 3 + i⟩
    else []

/-- One anchor of the vertical scan of `findMatches`. -/
def vWindow (b : Board) (rows r c : Nat) : List Position :=
  match cellType b r c with
  | none => []
  | some t =>
    if cellType b (r + 1) c = some t ∧ cellType b (r + 2) c = some t then
      ⟨r, c⟩ :: ⟨r + 1, c⟩ :: ⟨r + 2, c⟩ ::
        (List.range (vRunFrom b c t rows (r + 3))).map fun i => ⟨r + 3 + i, c⟩
    else []

/-- The match detector `findMatches(board)`: horizontal anchors are scanned
row-major over `row < rows`, `col < cols - 2`, then vertical anchors
column-major over `col < cols`, `row < rows - 2`, accumulating positions into
the deduplicating set. -/
def findMatches (b : Board) : List Position :=
  (List.range (b.getD 0 []).length).foldl
    (fun acc c => (List.range (b.length - 2)).foldl
      (fun acc2 r => addPositions acc2 (vWindow b b.length r c)) acc)
    ((List.range b.length).foldl
      (fun acc r => (List.range ((b.getD 0 []).length - 2)).foldl
        (fun acc2 c => addPositions acc2 (hWindow b (b.getD 0 []).length r c)) acc)
      [])

/-- The remover `removeMatches(board, matches)`: each listed cell is nulled. -/
def removeMatches (b : Board) (ms : List Position) : Board :=
  ms.foldl (fun acc p => setCell acc p.row p.col none) b

/-- The occupied cells of a column with their original row indices, scanned
top to bottom from row index `i`.  (The JS gravity loop scans bottom-to-top;
the i-th occupied cell counted from the bottom lands at row `rows - 1 - i`,
i.e. the j-th occupied cell counted from the top lands at `rows - m + j`.) -/
def occIdx : Nat → List (Option Candy) → List (Nat × Candy)
  | _, [] => []
  | i, none :: rest => occIdx (i + 1) rest
  | i, some cd :: rest => (i, cd) :: occIdx (i + 1) rest

/-- Compaction of the occupied cells of column `c`: the j-th surviving tile
(counted from the top) is placed at row `rows - m + j`; exactly when it
actually moves (`row !== emptyRow` in the source) its row/col fields are
rewritten to the new cell. -/
def relocate (rows m c : Nat) : Nat → List (Nat × Candy) → List (Option Candy)
  | _, [] => []
  | j, p :: rest =>
    (if p.1 = rows - m + j then some p.2
     else some { p.2 with row := rows - m + j, col := c }) ::
      relocate rows m c (j + 1) rest

/-- Column `c` of the board, read top to bottom over `rows` rows. -/
def colCells (b : Board) (rows c : Nat) : List (Option Candy) :=
  (List.range rows).map fun r => getCell b r c

/-- One column step of `applyGravity`: compact the survivors to the bottom,
then fill the `rows - m` vacated top cells with fresh factory tiles.  The JS
fill loop runs `row = emptyRow .. 0` downward, so the draw for row `r` is the
`(numNew - 1 - r)`-th consumed in this column; the returned counter advances
by one draw per created tile. -/
def gravityColumn (σ : Nat → Nat) (k rows level c : Nat)
    (cells : List (Option Candy)) : List (Option Candy) × Nat :=
  (((List.range (rows - (occIdx 0 cells).length)).map fun r =>
      some (createCandy
        (σ (k + (rows - (occIdx 0 cells).length - 1 - r))) r c level)) ++
    relocate rows (occIdx 0 cells).length c 0 (occIdx 0 cells),
   k + (rows - (occIdx 0 cells).length))

/-- Writing a computed column back into the board, cell by cell from row 0. -/
def setColumnAux (c : Nat) : Board → Nat → List (Option Candy) → Board
  | b, _, [] => b
  | b, r, v :: rest => setColumnAux c (setCell b r c v) (r + 1) rest

/-- Writing a computed column back into the board. -/
def setColumn (b : Board) (c : Nat) (cells : List (Option Candy)) : Board :=
  setColumnAux c b 0 cells

/-- The column loop `for (col = 0; col < cols; col++)` of `applyGravity`,
recursing over the number of columns still to process. -/
def gravityCols (σ : Nat → Nat) (rows level : Nat) :
    Nat → Nat → Board → Nat → Board × Nat
  | _, 0, b, k => (b, k)
  | c, n + 1, b, k =>
    gravityCols σ rows level (c + 1) n
      (setColumn b c (gravityColumn σ k rows level c (colCells b rows c)).1)
      (gravityColumn σ k rows level c (colCells b rows c)).2

/-- The gravity/refill engine `applyGravity(board, level)`; `k` is the draw
counter at entry. -/
def applyGravity (σ : Nat → Nat) (k : Nat) (b : Board) (level : Nat) : Board :=
  (gravityCols σ b.length level 0 (b.getD 0 []).length b k).1

/-- The surviving tiles of column `c`, top to bottom (a measurement used to
state the gravity claims). -/
def occupiedInCol (b : Board) (rows c : Nat) : List Candy :=
  (colCells b rows c).filterMap id

/-- Number of fresh tiles gravity creates in column `c`. -/
def newInCol (b : Board) (rows c : Nat) : Nat :=
  rows - (occupiedInCol b rows c).length

/-- The draw counter at which gravity starts refilling column `c`. -/
def colStart (b : Board) (rows k c : Nat) : Nat :=
  k + ((List.range c).map fun j => newInCol b rows j).sum

/-- Total number of fresh tiles gravity creates in the `d` columns starting
at column `c0` (used to track the draw counter across the column loop). -/
def sumNewRange (b : Board) (rows c0 d : Nat) : Nat :=
  ((List.range d).map fun i => newInCol b rows (c0 + i)).sum

/-- The move validator `hasValidMoves(board)`: for every cell, try the swap
with the right neighbor and then with the bottom neighbor (skipping
out-of-bounds), and report whether some trial yields a match. -/
def hasValidMoves (b : Board) : Bool :=
  (List.range b.length).any fun row =>
    (List.range (b.getD 0 []).length).any fun col =>
      (decide (col + 1 < (b.getD 0 []).length) &&
        decide (0 < (findMatches
          (swapCandies b ⟨row, col⟩ ⟨row, col + 1⟩)).length)) ||
      (decide (row + 1 < b.length) &&
        decide (0 < (findMatches
          (swapCandies b ⟨row, col⟩ ⟨row + 1, col⟩)).length))

/-- The regeneration loop of the Board Generator: starting from a candidate,
while the placement would create a match and fewer than 10 regeneration
attempts have been made, draw a fresh candidate. -/
def placeCandyAux (σ : Nat → Nat) (b : Board) (row col level : Nat) :
    Candy → Nat → Nat → Candy × Nat
  | candy, k, 0 => (candy, k)
  | candy, k, n + 1 =>
    if checkWouldCreateMatch b candy row col then
      placeCandyAux σ b row col level (createCandy (σ k) row col level) (k + 1) n
    else (candy, k)

/-- One cell of `createInitialBoard`: first candidate plus up to 10 retries. -/
def placeCandy (σ : Nat → Nat) (b : Board) (row col level k : Nat) :
    Candy × Nat :=
  placeCandyAux σ b row col level (createCandy (σ k) row col level) (k + 1) 10

/-- The inner column loop of `createInitialBoard`, filling row `prev.length`
left to right; `prev` holds the completed rows, `cur` the partial current row
(the board visible to `checkWouldCreateMatch` is `prev ++ [cur]`).  Alongside
the cells and the draw counter it reports whether every accepted candidate
passed `checkWouldCreateMatch` (i.e. the 10-attempt cap never forced an
acceptance). -/
def buildRowAux (σ : Nat → Nat) (level : Nat) (prev : Board) :
    List (Option Candy) → Nat → Bool → Nat → List (Option Candy) × Nat × Bool
  | cur, k, ok, 0 => (cur, k, ok)
  | cur, k, ok, n + 1 =>
    let board := prev ++ [cur]
    let pc := placeCandy σ board prev.length cur.length level k
    buildRowAux σ level prev (cur ++ [some pc.1]) pc.2
      (ok && !checkWouldCreateMatch board pc.1 prev.length cur.length) n

/-- The outer row loop of `createInitialBoard`. -/
def buildBoardAux (σ : Nat → Nat) (level cols : Nat) :
    Board → Nat → Bool → Nat → Board × Nat × Bool
  | prev, k, ok, 0 => (prev, k, ok)
  | prev, k, ok, n + 1 =>
    let rc := buildRowAux σ level prev [] k ok cols
    buildBoardAux σ level cols (prev ++ [rc.1]) rc.2.1 rc.2.2 n

/-- The Board Generator `createInitialBoard(rows, cols, level)`, starting
from draw counter `k`. -/
def createInitialBoardFrom (σ : Nat → Nat) (k rows cols level : Nat) : Board :=
  (buildBoardAux σ level cols [] k true rows).1

/-- The Board Generator starting from the first draw of the stream. -/
def createInitialBoard (σ : Nat → Nat) (rows cols level : Nat) : Board :=
  createInitialBoardFrom σ 0 rows cols level

/-- True when generation never exhausted the 10-attempt regeneration cap,
i.e. every accepted candidate passed `checkWouldCreateMatch`. -/
def createInitialBoardOk (σ : Nat → Nat) (rows cols level : Nat) : Bool :=
  (buildBoardAux σ level cols [] 0 true rows).2.2

/-- Fresh types for one row of the Board Randomizer's reassignment. -/
def reassignRow (σ : Nat → Nat) (level r k len : Nat) : List (Option Candy) :=
  (List.range len).map fun c => some (createCandy (σ (k + c)) r c level)

/-- Modelled from the spec: one full type-reassignment pass of the Board
Randomizer (spec section 4.7 allows count-preserving or regenerate-all;
regenerate-all via the Tile Factory is used here).  `randomizeBoard` itself
is imported by GameBoard.tsx but implemented in no source file. -/
def reassignTypes (σ : Nat → Nat) (k : Nat) (b : Board) (level : Nat) :
    Board × Nat :=
  b.foldl (fun acc row =>
      (acc.1 ++ [reassignRow σ level acc.1.length acc.2 row.length],
       acc.2 + row.length))
    ([], k)

/-- Modelled from the spec: the retry loop of the Board Randomizer — repeat
reassignment until `hasValidMoves` holds, with a safety cap, then fall back
to a freshly generated Board Generator result. -/
def randomizeBoardAux (σ : Nat → Nat) (b : Board) (level : Nat) :
    Nat → Nat → Board
  | k, 0 => createInitialBoardFrom σ k b.length (b.getD 0 []).length level
  | k, n + 1 =>
    let rb := reassignTypes σ k b level
    if hasValidMoves rb.1 then rb.1 else randomizeBoardAux σ b level rb.2 n

/-- Modelled from the spec: `randomizeBoard(board, level)` with a cap of 10
reassignment attempts (the spec fixes no cap value). -/
def randomizeBoard (σ : Nat → Nat) (k : Nat) (b : Board) (level : Nat) :
    Board :=
  randomizeBoardAux σ b level k 10

/-- Rectangular well-formedness: `rows` rows that all have length `cols`
(the shape `findMatches`, `hasValidMoves` and `applyGravity` read off the
board via `board.length` and `board[0].length`). -/
def Rect (b : Board) (rows cols : Nat) : Prop :=
  b.length = rows ∧ (∀ row ∈ b, row.length = cols) ∧
    (b.getD 0 []).length = cols

/-- The data-model invariant: every tile's row/col fields name its cell. -/
def Consistent (b : Board) : Prop :=
  ∀ r c cd, getCell b r c = some cd → cd.row = r ∧ cd.col = c

/-- Decidable checker for `Consistent` on concrete boards. -/
def consistentB (b : Board) : Bool :=
  (List.range b.length).all fun r =>
    (List.range (b.getD r []).length).all fun c =>
      match getCell b r c with
      | none => true
      | some cd => decide (cd.row = r ∧ cd.col = c)

/-- No three consecutive equal occupied types anywhere, horizontally or
vertically (the configurations the `findMatches` anchors fire on). -/
def windowFree (b : Board) : Prop :=
  ∀ r c t,
    ¬(cellType b r c = some t ∧ cellType b r (c + 1) = some t ∧
        cellType b r (c + 2) = some t) ∧
    ¬(cellType b r c = some t ∧ cellType b (r + 1) c = some t ∧
        cellType b (r + 2) c = some t)

/-- A labelled tile for building concrete test boards. -/
def mkCandy (t : CandyType) (r c : Nat) : Candy :=
  { type := t, row := r, col := c, isMatched := false, isFalling := false }

/-- A throwaway tile used only as a `getD` default in proofs. -/
def dummyCandy : Candy :=
  mkCandy .red 0 0

/-- A fully occupied board from a matrix of types, with consistent coords. -/
def boardOfTypes (tss : List (List CandyType)) : Board :=
  tss.mapIdx fun r ts => ts.mapIdx fun c t => some (mkCandy t r c)

/-- A 3×3 latin-square board: every row and column holds three distinct
types, so no swap can complete a run of three — a deadlocked board. -/
def latinB : Board :=
  boardOfTypes [[.red, .blue, .green], [.green, .red, .blue],
    [.blue, .green, .red]]

/-- A randomness stream that reproduces the latin-square board on every
9-draw generation pass (indices 0,1,2 name red, blue, green at level 1). -/
def sigmaLatin : Nat → Nat :=
  fun k => [0, 1, 2, 2, 0, 1, 1, 2, 0].getD (k % 9) 0

/-- A 2×2 board with two holes, for gravity witnesses. -/
def bW6 : Board :=
  [[some (mkCandy .green 0 0), none], [none, some (mkCandy .red 1 1)]]

/-- A 3×3 board whose top row is an all-red run (for match-set witnesses). -/
def rowRedB : Board :=
  boardOfTypes [[.red, .red, .red], [.blue, .green, .yellow],
    [.green, .yellow, .blue]]

/-- The spec's scenario board: a 4×4 board whose column 3 is `[G,G,G,G]`. -/
def colGB : Board :=
  boardOfTypes [[.red, .blue, .red, .green], [.blue, .red, .yellow, .green],
    [.red, .blue, .red, .green], [.blue, .red, .yellow, .green]]

instance instDecidableRect (b : Board) (rows cols : Nat) :
    Decidable (Rect b rows cols) := by
  unfold Rect; infer_instance

theorem getD_set_self {α : Type} (l : List α) (i : Nat) (a d : α)
    (h : i < l.length) : (l.set i a).getD i d = a := by
  simp [List.getD_eq_getElem?_getD, List.getElem?_set_self h]

theorem getD_set_ne {α : Type} (l : List α) {i j : Nat} (h : i ≠ j) (a d : α) :
    (l.set i a).getD j d = l.getD j d := by
  simp [List.getD_eq_getElem?_getD, List.getElem?_set_ne h]

theorem getD_append_lt {α : Type} (l1 l2 : List α) (d : α) {i : Nat}
    (h : i < l1.length) : (l1 ++ l2).getD i d = l1.getD i d :=
  List.getD_append _ _ _ _ h

theorem getD_append_ge {α : Type} (l1 l2 : List α) (d : α) {i : Nat}
    (h : l1.length ≤ i) : (l1 ++ l2).getD i d = l2.getD (i - l1.length) d := by
  simp [List.getD_eq_getElem?_getD, List.getElem?_append_right h]

theorem length_setCell (b : Board) (r c : Nat) (v : Option Candy) :
    (setCell b r c v).length = b.length :=
  List.length_set ..

theorem rowLen_setCell (b : Board) (r c : Nat) (v : Option Candy) (r' : Nat) :
    ((setCell b r c v).getD r' []).length = (b.getD r' []).length := by
  unfold setCell
  by_cases hr : r = r'
  · subst hr
    by_cases hlt : r < b.length
    · rw [getD_set_self _ _ _ _ hlt, List.length_set]
    · rw [List.set_eq_of_length_le (Nat.le_of_not_lt hlt)]
  · rw [getD_set_ne _ hr]

theorem getCell_setCell_self (b : Board) (r c : Nat) (v : Option Candy)
    (hr : r < b.length) (hc : c < (b.getD r []).length) :
    getCell (setCell b r c v) r c = v := by
  unfold getCell setCell
  rw [getD_set_self _ _ _ _ hr, getD_set_self _ _ _ _ hc]

theorem getCell_setCell_ne (b : Board) {r c r' c' : Nat}
    (h : r ≠ r' ∨ c ≠ c') (v : Option Candy) :
    getCell (setCell b r c v) r' c' = getCell b r' c' := by
  unfold getCell setCell
  by_cases hr : r = r'
  · subst hr
    have hc : c ≠ c' := h.resolve_left (by simp)
    by_cases hlt : r < b.length
    · rw [getD_set_self _ _ _ _ hlt, getD_set_ne _ hc]
    · rw [List.set_eq_of_length_le (Nat.le_of_not_lt hlt)]
  · rw [getD_set_ne _ hr]

theorem mem_addPos {p q : Position} {acc : List Position} :
    p ∈ addPos acc q ↔ p ∈ acc ∨ p = q := by
  unfold addPos
  split_ifs with h
  · constructor
    · exact Or.inl
    · rintro (h1 | rfl) <;> [exact h1; exact h]
  · simp [List.mem_append]

theorem mem_addPositions {p : Position} {ps acc : List Position} :
    p ∈ addPositions acc ps ↔ p ∈ acc ∨ p ∈ ps := by
  induction ps generalizing acc with
  | nil => simp [addPositions]
  | cons q rest ih =>
    show p ∈ addPositions (addPos acc q) rest ↔ _
    rw [ih, mem_addPos, List.mem_cons]
    tauto

theorem mem_foldl_iff {α : Type} {g : List Position → α → List Position}
    {Q : α → Position → Prop}
    (hg : ∀ a x p, p ∈ g a x ↔ p ∈ a ∨ Q x p) :
    ∀ (l : List α) (acc : List Position) (p : Position),
      p ∈ l.foldl g acc ↔ p ∈ acc ∨ ∃ x ∈ l, Q x p := by
  intro l
  induction l with
  | nil => intro acc p; simp
  | cons x rest ih =>
    intro acc p
    rw [List.foldl_cons, ih, hg]
    simp only [List.mem_cons]
    constructor
    · rintro ((h | h) | ⟨y, hy, hQ⟩)
      · exact Or.inl h
      · exact Or.inr ⟨x, Or.inl rfl, h⟩
      · exact Or.inr ⟨y, Or.inr hy, hQ⟩
    · rintro (h | ⟨y, (rfl | hy), hQ⟩)
      · exact Or.inl (Or.inl h)
      · exact Or.inl (Or.inr hQ)
      · exact Or.inr ⟨y, hy, hQ⟩

theorem mem_foldl_addPositions {α : Type} (f : α → List Position) (l : List α)
    (acc : List Position) (p : Position) :
    p ∈ l.foldl (fun a x => addPositions a (f x)) acc ↔
      p ∈ acc ∨ ∃ x ∈ l, p ∈ f x :=
  mem_foldl_iff (Q := fun x p => p ∈ f x) (fun _ _ _ => mem_addPositions) l acc p

theorem mem_foldl_foldl {α β : Type} (f : α → β → List Position)
    (inner : α → List β) (l : List α) (acc : List Position) (p : Position) :
    p ∈ l.foldl
        (fun a x => (inner x).foldl (fun a2 y => addPositions a2 (f x y)) a) acc ↔
      p ∈ acc ∨ ∃ x ∈ l, ∃ y ∈ inner x, p ∈ f x y :=
  mem_foldl_iff (Q := fun x p => ∃ y ∈ inner x, p ∈ f x y)
    (fun a x q => mem_foldl_addPositions (f x) (inner x) a q) l acc p

theorem mem_findMatches_iff (b : Board) (p : Position) :
    p ∈ findMatches b ↔
      (∃ r ∈ List.range b.length, ∃ c ∈ List.range ((b.getD 0 []).length - 2),
        p ∈ hWindow b (b.getD 0 []).length r c) ∨
      (∃ c ∈ List.range (b.getD 0 []).length, ∃ r ∈ List.range (b.length - 2),
        p ∈ vWindow b b.length r c) := by
  have h1 : p ∈ (List.range b.length).foldl
      (fun acc r => (List.range ((b.getD 0 []).length - 2)).foldl
        (fun acc2 c => addPositions acc2 (hWindow b (b.getD 0 []).length r c)) acc)
      [] ↔
      ∃ r ∈ List.range b.length, ∃ c ∈ List.range ((b.getD 0 []).length - 2),
        p ∈ hWindow b (b.getD 0 []).length r c := by
    refine Iff.trans
      (mem_foldl_foldl (fun r c => hWindow b (b.getD 0 []).length r c)
        (fun _ => List.range ((b.getD 0 []).length - 2)) _ _ _) ?_
    simp
  refine Iff.trans
    (mem_foldl_foldl (fun c r => vWindow b b.length r c)
      (fun _ => List.range (b.length - 2)) _ _ _) ?_
  rw [h1]

set_option maxHeartbeats 1600000 in
/-- The claim C9: getBoardSize is a monotone, always-square step function with
the stated boundary values, and is 11x11 for every level beyond 700. -/
theorem getBoardSize_spec :
    (∀ level, (getBoardSize level).1 = (getBoardSize level).2) ∧
    (∀ a b : Nat, a ≤ b → (getBoardSize a).1 ≤ (getBoardSize b).1) ∧
    getBoardSize 10 = (4, 4) ∧ getBoardSize 11 = (5, 5) ∧
    getBoardSize 1000 = (11, 11) ∧
    (∀ level, 700 < level → getBoardSize level = (11, 11)) := by
  refine ⟨?_, ?_, by decide, by decide, by decide, ?_⟩
  · intro level
    unfold getBoardSize
    split_ifs <;> rfl
  · intro a b hab
    unfold getBoardSize
    split_ifs <;> omega
  · intro level h
    unfold getBoardSize
    split_ifs <;> first | omega | rfl

/-- Witness for C9: the monotonicity part applied at the concrete pair 5 ≤ 999. -/
theorem getBoardSize_spec_witness :
    (getBoardSize 5).1 ≤ (getBoardSize 999).1 :=
  getBoardSize_spec.2.1 5 999 (by decide)

/-- The claim C4: createCandy draws its type from exactly the first
`min (4 + level / 10) 6` entries of the fixed palette: that slice has the
stated length, has no duplicate entries, is enumerated bijectively as the
draw ranges over `0 .. len-1` (so a uniform draw induces a uniform type), and
every draw whatsoever lands inside the slice. -/
theorem createCandy_uniformPalette (row col level : Nat) :
    availableTypes level = CANDY_TYPES.take (min (4 + level / 10) 6) ∧
    (availableTypes level).length = min (4 + level / 10) 6 ∧
    (availableTypes level).Nodup ∧
    ((List.range (min (4 + level / 10) 6)).map
        fun u => (createCandy u row col level).type) = availableTypes level ∧
    ∀ draw, (createCandy draw row col level).type ∈ availableTypes level := by
  have hlen6 : CANDY_TYPES.length = 6 := by decide
  have hlen : (availableTypes level).length = min (4 + level / 10) 6 := by
    simp only [availableTypes, hlen6, List.length_take]
    omega
  have hpos : 0 < (availableTypes level).length := by
    rw [hlen]; omega
  refine ⟨by rw [availableTypes, hlen6], hlen, ?_, ?_, ?_⟩
  · exact (List.take_sublist _ _).nodup (by decide)
  · apply List.ext_getElem
    · simp [hlen]
    · intro i h1 h2
      have hi : i < (availableTypes level).length := h2
      have hmod : i % (availableTypes level).length = i := Nat.mod_eq_of_lt hi
      simp [createCandy, hmod, List.getElem?_eq_getElem hi]
  · intro draw
    have h : draw % (availableTypes level).length < (availableTypes level).length :=
      Nat.mod_lt _ hpos
    simp [createCandy, List.getElem?_eq_getElem h, List.getElem_mem h]

theorem hRunFromAux_le (b : Board) (r : Nat) (t : CandyType) :
    ∀ (fuel i : Nat), hRunFromAux b r t i fuel ≤ fuel := by
  intro fuel
  induction fuel with
  | zero => intro i; simp [hRunFromAux]
  | succ fuel ih =>
    intro i
    simp only [hRunFromAux]
    split_ifs with h
    · have := ih (i + 1); omega
    · omega

theorem hRunFromAux_sound (b : Board) (r : Nat) (t : CandyType) :
    ∀ (fuel i x : Nat), x < hRunFromAux b r t i fuel →
      cellType b r (i + x) = some t := by
  intro fuel
  induction fuel with
  | zero => intro i x h; simp [hRunFromAux] at h
  | succ fuel ih =>
    intro i x h
    simp only [hRunFromAux] at h
    by_cases hc : cellType b r i = some t
    · rw [if_pos hc] at h
      cases x with
      | zero => simpa using hc
      | succ x =>
        have hx := ih (i + 1) x (by omega)
        rwa [show i + (x + 1) = i + 1 + x by omega]
    · rw [if_neg hc] at h
      omega

theorem hRunFrom_sound (b : Board) (r : Nat) (t : CandyType) (bound i x : Nat)
    (h : x < hRunFrom b r t bound i) :
    cellType b r (i + x) = some t ∧ i + x < bound := by
  refine ⟨hRunFromAux_sound b r t _ i x h, ?_⟩
  have := hRunFromAux_le b r t (bound - i) i
  unfold hRunFrom at h
  omega

theorem hRunFrom_ge (b : Board) (r : Nat) (t : CandyType) (bound : Nat) :
    ∀ (d i : Nat), (∀ x, x < d → cellType b r (i + x) = some t) →
      i + d ≤ bound → d ≤ hRunFrom b r t bound i := by
  intro d
  induction d with
  | zero => intro i _ _; exact Nat.zero_le _
  | succ d ih =>
    intro i hall hb
    have h0 : cellType b r i = some t := by simpa using hall 0 (Nat.succ_pos d)
    have hrec := ih (i + 1) (fun x hx => by
        have hh := hall (x + 1) (by omega)
        rwa [show i + (x + 1) = i + 1 + x by omega] at hh) (by omega)
    unfold hRunFrom at hrec ⊢
    have hfuel : bound - i = (bound - (i + 1)) + 1 := by omega
    rw [hfuel]
    simp only [hRunFromAux, h0, if_true]
    omega

theorem vRunFromAux_le (b : Board) (c : Nat) (t : CandyType) :
    ∀ (fuel i : Nat), vRunFromAux b c t i fuel ≤ fuel := by
  intro fuel
  induction fuel with
  | zero => intro i; simp [vRunFromAux]
  | succ fuel ih =>
    intro i
    simp only [vRunFromAux]
    split_ifs with h
    · have := ih (i + 1); omega
    · omega

theorem vRunFromAux_sound (b : Board) (c : Nat) (t : CandyType) :
    ∀ (fuel i x : Nat), x < vRunFromAux b c t i fuel →
      cellType b (i + x) c = some t := by
  intro fuel
  induction fuel with
  | zero => intro i x h; simp [vRunFromAux] at h
  | succ fuel ih =>
    intro i x h
    simp only [vRunFromAux] at h
    by_cases hc : cellType b i c = some t
    · rw [if_pos hc] at h
      cases x with
      | zero => simpa using hc
      | succ x =>
        have hx := ih (i + 1) x (by omega)
        rwa [show i + (x + 1) = i + 1 + x by omega]
    · rw [if_neg hc] at h
      omega

theorem vRunFrom_sound (b : Board) (c : Nat) (t : CandyType) (bound i x : Nat)
    (h : x < vRunFrom b c t bound i) :
    cellType b (i + x) c = some t ∧ i + x < bound := by
  refine ⟨vRunFromAux_sound b c t _ i x h, ?_⟩
  have := vRunFromAux_le b c t (bound - i) i
  unfold vRunFrom at h
  omega

theorem vRunFrom_ge (b : Board) (c : Nat) (t : CandyType) (bound : Nat) :
    ∀ (d i : Nat), (∀ x, x < d → cellType b (i + x) c = some t) →
      i + d ≤ bound → d ≤ vRunFrom b c t bound i := by
  intro d
  induction d with
  | zero => intro i _ _; exact Nat.zero_le _
  | succ d ih =>
    intro i hall hb
    have h0 : cellType b i c = some t := by simpa using hall 0 (Nat.succ_pos d)
    have hrec := ih (i + 1) (fun x hx => by
        have hh := hall (x + 1) (by omega)
        rwa [show i + (x + 1) = i + 1 + x by omega] at hh) (by omega)
    unfold vRunFrom at hrec ⊢
    have hfuel : bound - i = (bound - (i + 1)) + 1 := by omega
    rw [hfuel]
    simp only [vRunFromAux, h0, if_true]
    omega

theorem getCell_ne_none_of_cellType {b : Board} {r c : Nat} {t : CandyType}
    (h : cellType b r c = some t) : getCell b r c ≠ none := by
  unfold cellType at h
  intro hn
  rw [hn] at h
  simp at h

theorem hWindow_eq_of_none {b : Board} {cols r c : Nat}
    (h0 : cellType b r c = none) : hWindow b cols r c = [] := by
  unfold hWindow
  rw [h0]

theorem hWindow_eq_of_some {b : Board} {cols r c : Nat} {t : CandyType}
    (h0 : cellType b r c = some t) :
    hWindow b cols r c =
      if cellType b r (c + 1) = some t ∧ cellType b r (c + 2) = some t then
        ⟨r, c⟩ :: ⟨r, c + 1⟩ :: ⟨r, c + 2⟩ ::
          (List.range (hRunFrom b r t cols (c + 3))).map
            (fun i => ⟨r, c + 3 + i⟩)
      else [] := by
  unfold hWindow
  rw [h0]

theorem vWindow_eq_of_none {b : Board} {rows r c : Nat}
    (h0 : cellType b r c = none) : vWindow b rows r c = [] := by
  unfold vWindow
  rw [h0]

theorem vWindow_eq_of_some {b : Board} {rows r c : Nat} {t : CandyType}
    (h0 : cellType b r c = some t) :
    vWindow b rows r c =
      if cellType b (r + 1) c = some t ∧ cellType b (r + 2) c = some t then
        ⟨r, c⟩ :: ⟨r + 1, c⟩ :: ⟨r + 2, c⟩ ::
          (List.range (vRunFrom b c t rows (r + 3))).map
            (fun i => ⟨r + 3 + i, c⟩)
      else [] := by
  unfold vWindow
  rw [h0]

theorem mem_hWindow_of_run (b : Board) (cols r c : Nat) (t : CandyType)
    (L : Nat) (hL : 3 ≤ L) (hbound : c + L ≤ cols)
    (hrun : ∀ i, i < L → cellType b r (c + i) = some t) :
    ∀ i, i < L → (⟨r, c + i⟩ : Position) ∈ hWindow b cols r c := by
  intro i hi
  have h0 : cellType b r c = some t := by simpa using hrun 0 (by omega)
  have h1 : cellType b r (c + 1) = some t := hrun 1 (by omega)
  have h2 : cellType b r (c + 2) = some t := hrun 2 (by omega)
  rw [hWindow_eq_of_some h0, if_pos ⟨h1, h2⟩]
  by_cases hsmall : i < 3
  · interval_cases i <;> simp
  · have hx : i - 3 < hRunFrom b r t cols (c + 3) := by
      have hge : L - 3 ≤ hRunFrom b r t cols (c + 3) := by
        apply hRunFrom_ge b r t cols (L - 3) (c + 3)
        · intro x hxL
          have := hrun (3 + x) (by omega)
          rwa [show c + (3 + x) = c + 3 + x by omega] at this
        · omega
      omega
    have hco : c + 3 + (i - 3) = c + i := by omega
    refine List.mem_cons.mpr (Or.inr (List.mem_cons.mpr (Or.inr
      (List.mem_cons.mpr (Or.inr ?_)))))
    rw [← hco]
    exact List.mem_map.mpr ⟨i - 3, List.mem_range.mpr hx, rfl⟩

theorem mem_vWindow_of_run (b : Board) (rows r c : Nat) (t : CandyType)
    (L : Nat) (hL : 3 ≤ L) (hbound : r + L ≤ rows)
    (hrun : ∀ i, i < L → cellType b (r + i) c = some t) :
    ∀ i, i < L → (⟨r + i, c⟩ : Position) ∈ vWindow b rows r c := by
  intro i hi
  have h0 : cellType b r c = some t := by simpa using hrun 0 (by omega)
  have h1 : cellType b (r + 1) c = some t := hrun 1 (by omega)
  have h2 : cellType b (r + 2) c = some t := hrun 2 (by omega)
  rw [vWindow_eq_of_some h0, if_pos ⟨h1, h2⟩]
  by_cases hsmall : i < 3
  · interval_cases i <;> simp
  · have hx : i - 3 < vRunFrom b c t rows (r + 3) := by
      have hge : L - 3 ≤ vRunFrom b c t rows (r + 3) := by
        apply vRunFrom_ge b c t rows (L - 3) (r + 3)
        · intro x hxL
          have := hrun (3 + x) (by omega)
          rwa [show r + (3 + x) = r + 3 + x by omega] at this
        · omega
      omega
    have hro : r + 3 + (i - 3) = r + i := by omega
    refine List.mem_cons.mpr (Or.inr (List.mem_cons.mpr (Or.inr
      (List.mem_cons.mpr (Or.inr ?_)))))
    rw [← hro]
    exact List.mem_map.mpr ⟨i - 3, List.mem_range.mpr hx, rfl⟩

theorem hWindow_sound (b : Board) (cols r c : Nat) (p : Position)
    (hc : c + 2 < cols) (hp : p ∈ hWindow b cols r c) :
    p.row = r ∧ p.col < cols ∧ getCell b p.row p.col ≠ none := by
  cases h0 : cellType b r c with
  | none => rw [hWindow_eq_of_none h0] at hp; simp at hp
  | some t =>
    rw [hWindow_eq_of_some h0] at hp
    by_cases hif : cellType b r (c + 1) = some t ∧ cellType b r (c + 2) = some t
    · rw [if_pos hif] at hp
      rcases List.mem_cons.mp hp with rfl | hp
      · exact ⟨rfl, by simp only [Position.mk.injEq]; omega, getCell_ne_none_of_cellType h0⟩
      rcases List.mem_cons.mp hp with rfl | hp
      · exact ⟨rfl, by simp only [Position.mk.injEq]; omega, getCell_ne_none_of_cellType hif.1⟩
      rcases List.mem_cons.mp hp with rfl | hp
      · exact ⟨rfl, by simp only [Position.mk.injEq]; omega, getCell_ne_none_of_cellType hif.2⟩
      obtain ⟨x, hx, rfl⟩ := List.mem_map.mp hp
      obtain ⟨hcell, hlt⟩ := hRunFrom_sound b r t cols (c + 3) x
        (List.mem_range.mp hx)
      exact ⟨rfl, hlt, getCell_ne_none_of_cellType hcell⟩
    · rw [if_neg hif] at hp; simp at hp

theorem vWindow_sound (b : Board) (rows r c : Nat) (p : Position)
    (hr : r + 2 < rows) (hp : p ∈ vWindow b rows r c) :
    p.col = c ∧ p.row < rows ∧ getCell b p.row p.col ≠ none := by
  cases h0 : cellType b r c with
  | none => rw [vWindow_eq_of_none h0] at hp; simp at hp
  | some t =>
    rw [vWindow_eq_of_some h0] at hp
    by_cases hif : cellType b (r + 1) c = some t ∧ cellType b (r + 2) c = some t
    · rw [if_pos hif] at hp
      rcases List.mem_cons.mp hp with rfl | hp
      · exact ⟨rfl, by simp only [Position.mk.injEq]; omega, getCell_ne_none_of_cellType h0⟩
      rcases List.mem_cons.mp hp with rfl | hp
      · exact ⟨rfl, by simp only [Position.mk.injEq]; omega, getCell_ne_none_of_cellType hif.1⟩
      rcases List.mem_cons.mp hp with rfl | hp
      · exact ⟨rfl, by simp only [Position.mk.injEq]; omega, getCell_ne_none_of_cellType hif.2⟩
      obtain ⟨x, hx, rfl⟩ := List.mem_map.mp hp
      obtain ⟨hcell, hlt⟩ := vRunFrom_sound b c t rows (r + 3) x
        (List.mem_range.mp hx)
      exact ⟨rfl, hlt, getCell_ne_none_of_cellType hcell⟩
    · rw [if_neg hif] at hp; simp at hp

theorem getCell_removeMatches (b : Board) (ms : List Position) (r c : Nat) :
    getCell (removeMatches b ms) r c = getCell b r c ∨
      getCell (removeMatches b ms) r c = none := by
  induction ms generalizing b with
  | nil => exact Or.inl rfl
  | cons q rest ih =>
    have hstep : removeMatches b (q :: rest) =
        removeMatches (setCell b q.row q.col none) rest := rfl
    rw [hstep]
    rcases ih (setCell b q.row q.col none) with h | h
    · rw [h]
      by_cases hq : q.row = r ∧ q.col = c
      · obtain ⟨rfl, rfl⟩ := hq
        by_cases hrow : q.row < b.length
        · by_cases hcol : q.col < (b.getD q.row []).length
          · exact Or.inr (getCell_setCell_self b q.row q.col none hrow hcol)
          · right
            unfold getCell setCell
            rw [getD_set_self _ _ _ _ hrow]
            rw [List.getD_eq_default]
            rw [List.length_set]
            omega
        · left
          unfold setCell
          rw [List.set_eq_of_length_le (Nat.le_of_not_lt hrow)]
      · left
        apply getCell_setCell_ne
        by_cases h1 : q.row = r
        · exact Or.inr fun h2 => hq ⟨h1, h2⟩
        · exact Or.inl h1
    · exact Or.inr h

/-- The claim C10: every position returned by findMatches lies inside the
bounds the detector scans (`board.length` rows, `board[0].length` columns)
and names an occupied cell; consequently removeMatches applied to the
detector's output changes only cells that actually held a tile. -/
theorem findMatches_sound (b : Board) :
    (∀ p ∈ findMatches b,
      p.row < b.length ∧ p.col < (b.getD 0 []).length ∧
        getCell b p.row p.col ≠ none) ∧
    (∀ r c, getCell (removeMatches b (findMatches b)) r c ≠ getCell b r c →
      getCell b r c ≠ none) := by
  constructor
  · intro p hp
    rw [mem_findMatches_iff] at hp
    rcases hp with ⟨r, hr, c, hc, hw⟩ | ⟨c, hc, r, hr, hw⟩
    · rw [List.mem_range] at hr hc
      have hc2 : c + 2 < (b.getD 0 []).length := by omega
      obtain ⟨hrow, hcol, hocc⟩ := hWindow_sound b _ r c p hc2 hw
      exact ⟨hrow ▸ hr, hcol, hocc⟩
    · rw [List.mem_range] at hr hc
      have hr2 : r + 2 < b.length := by omega
      obtain ⟨hcol, hrow, hocc⟩ := vWindow_sound b _ r c p hr2 hw
      exact ⟨hrow, hcol ▸ hc, hocc⟩
  · intro r c hne hnone
    rcases getCell_removeMatches b (findMatches b) r c with h | h
    · exact hne h
    · exact hne (by rw [h, hnone])

/-- Witness for C10 at a concrete board with a matched top row. -/
theorem findMatches_sound_witness :
    (⟨0, 0⟩ : Position).row < rowRedB.length ∧
      (⟨0, 0⟩ : Position).col < (rowRedB.getD 0 []).length ∧
      getCell rowRedB (⟨0, 0⟩ : Position).row (⟨0, 0⟩ : Position).col ≠ none :=
  (findMatches_sound rowRedB).1 ⟨0, 0⟩ (by decide)

/-- The claim C5: every horizontal or vertical run of L ≥ 3 consecutive
same-typed occupied cells has all L of its positions in the findMatches
output (not only the first three). -/
theorem findMatches_completeRuns (b : Board) (rows cols : Nat)
    (hrect : Rect b rows cols) (r c L : Nat) (t : CandyType) (hL : 3 ≤ L) :
    (r < rows → c + L ≤ cols → (∀ i, i < L → cellType b r (c + i) = some t) →
      ∀ i, i < L → (⟨r, c + i⟩ : Position) ∈ findMatches b) ∧
    (c < cols → r + L ≤ rows → (∀ i, i < L → cellType b (r + i) c = some t) →
      ∀ i, i < L → (⟨r + i, c⟩ : Position) ∈ findMatches b) := by
  obtain ⟨hbl, _, h0l⟩ := hrect
  constructor
  · intro hr hcL hrun i hi
    rw [mem_findMatches_iff]
    left
    refine ⟨r, List.mem_range.mpr (by omega), c, List.mem_range.mpr (by omega),
      ?_⟩
    rw [h0l]
    exact mem_hWindow_of_run b cols r c t L hL hcL hrun i hi
  · intro hc hrL hrun i hi
    rw [mem_findMatches_iff]
    right
    refine ⟨c, List.mem_range.mpr (by omega), r, List.mem_range.mpr (by omega),
      ?_⟩
    rw [hbl]
    exact mem_vWindow_of_run b rows r c t L hL hrL hrun i hi

/-- Witness for C5: the spec scenario of a 4×4 board with column 3 equal to
`[G,G,G,G]` — all four positions of that column are returned. -/
theorem findMatches_completeRuns_witness :
    (⟨0, 3⟩ : Position) ∈ findMatches colGB ∧
      (⟨1, 3⟩ : Position) ∈ findMatches colGB ∧
      (⟨2, 3⟩ : Position) ∈ findMatches colGB ∧
      (⟨3, 3⟩ : Position) ∈ findMatches colGB := by
  have h := (findMatches_completeRuns colGB 4 4 (by decide) 0 3 4
    CandyType.green (by decide)).2 (by decide) (by decide)
    (by decide)
  exact ⟨h 0 (by decide), h 1 (by decide), h 2 (by decide), h 3 (by decide)⟩

theorem updatePos_type (oc : Option Candy) (r c : Nat) :
    (updatePos oc r c).map Candy.type = oc.map Candy.type := by
  cases oc <;> rfl

theorem length_swapCandies (b : Board) (p1 p2 : Position) :
    (swapCandies b p1 p2).length = b.length := by
  unfold swapCandies
  rw [length_setCell, length_setCell]

theorem rowLen_swapCandies (b : Board) (p1 p2 : Position) (r' : Nat) :
    ((swapCandies b p1 p2).getD r' []).length = (b.getD r' []).length := by
  unfold swapCandies
  rw [rowLen_setCell, rowLen_setCell]

theorem getCell_swapCandies (b : Board) (p1 p2 : Position)
    (h1r : p1.row < b.length) (h1c : p1.col < (b.getD p1.row []).length)
    (h2r : p2.row < b.length) (h2c : p2.col < (b.getD p2.row []).length) :
    ∀ r c, getCell (swapCandies b p1 p2) r c =
      if r = p2.row ∧ c = p2.col then
        updatePos (getCell b p1.row p1.col) p2.row p2.col
      else if r = p1.row ∧ c = p1.col then
        updatePos (getCell b p2.row p2.col) p1.row p1.col
      else getCell b r c := by
  intro r c
  unfold swapCandies
  by_cases hA : r = p2.row ∧ c = p2.col
  · obtain ⟨ha1, ha2⟩ := hA
    subst ha1; subst ha2
    rw [if_pos ⟨rfl, rfl⟩]
    apply getCell_setCell_self
    · rw [length_setCell]; exact h2r
    · rw [rowLen_setCell]; exact h2c
  · rw [if_neg hA]
    have hne2 : p2.row ≠ r ∨ p2.col ≠ c := by
      by_cases hrr : r = p2.row
      · exact Or.inr fun hcc => hA ⟨hrr, hcc.symm⟩
      · exact Or.inl fun hrr2 => hrr hrr2.symm
    rw [getCell_setCell_ne _ hne2]
    by_cases hB : r = p1.row ∧ c = p1.col
    · obtain ⟨hb1, hb2⟩ := hB
      subst hb1; subst hb2
      rw [if_pos ⟨rfl, rfl⟩]
      exact getCell_setCell_self b _ _ _ h1r h1c
    · rw [if_neg hB]
      apply getCell_setCell_ne
      by_cases hrr : r = p1.row
      · exact Or.inr fun hcc => hB ⟨hrr, hcc.symm⟩
      · exact Or.inl fun hrr2 => hrr hrr2.symm

/-- The claim C8: on in-bounds positions swapCandies is its own inverse —
swapping twice restores the type at every cell (and the embedded
swapCandies is a pure function returning a new grid, the input grid value
being unchanged by construction). -/
theorem swapCandies_involutive (b : Board) (p1 p2 : Position)
    (h1r : p1.row < b.length) (h1c : p1.col < (b.getD p1.row []).length)
    (h2r : p2.row < b.length) (h2c : p2.col < (b.getD p2.row []).length) :
    ∀ r c, cellType (swapCandies (swapCandies b p1 p2) p1 p2) r c =
      cellType b r c := by
  intro r c
  have hb1len := length_swapCandies b p1 p2
  have hb1row := rowLen_swapCandies b p1 p2
  have hchar1 := getCell_swapCandies b p1 p2 h1r h1c h2r h2c
  have hchar2 := getCell_swapCandies (swapCandies b p1 p2) p1 p2
    (by rw [hb1len]; exact h1r) (by rw [hb1row]; exact h1c)
    (by rw [hb1len]; exact h2r) (by rw [hb1row]; exact h2c)
  unfold cellType
  rw [hchar2 r c]
  by_cases hA : r = p2.row ∧ c = p2.col
  · rw [if_pos hA, updatePos_type, hchar1 p1.row p1.col]
    by_cases hB : p1.row = p2.row ∧ p1.col = p2.col
    · rw [if_pos hB, updatePos_type, hA.1, hA.2, hB.1, hB.2]
    · rw [if_neg hB, if_pos ⟨rfl, rfl⟩, updatePos_type, hA.1, hA.2]
  · rw [if_neg hA]
    by_cases hB : r = p1.row ∧ c = p1.col
    · rw [if_pos hB, updatePos_type, hchar1 p2.row p2.col,
        if_pos ⟨rfl, rfl⟩, updatePos_type, hB.1, hB.2]
    · rw [if_neg hB, hchar1 r c, if_neg hA, if_neg hB]

/-- Witness for C8 at a concrete board and adjacent cell pair. -/
theorem swapCandies_involutive_witness :
    cellType (swapCandies (swapCandies rowRedB ⟨0, 0⟩ ⟨0, 1⟩) ⟨0, 0⟩ ⟨0, 1⟩)
        0 0 = cellType rowRedB 0 0 :=
  swapCandies_involutive rowRedB ⟨0, 0⟩ ⟨0, 1⟩ (by decide) (by decide)
    (by decide) (by decide) 0 0

theorem setCell_comm (b : Board) {r1 c1 r2 c2 : Nat}
    (h : r1 ≠ r2 ∨ c1 ≠ c2) (v1 v2 : Option Candy) :
    setCell (setCell b r1 c1 v1) r2 c2 v2 =
      setCell (setCell b r2 c2 v2) r1 c1 v1 := by
  by_cases hr : r1 = r2
  · subst hr
    have hc : c1 ≠ c2 := by
      rcases h with h | h
      · exact absurd rfl h
      · exact h
    unfold setCell
    by_cases hlen : r1 < b.length
    · rw [getD_set_self _ _ _ _ hlen, getD_set_self _ _ _ _ hlen,
        List.set_set, List.set_set, List.set_comm _ _ _ hc]
    · have hle := Nat.le_of_not_lt hlen
      simp [List.set_eq_of_length_le hle]
  · unfold setCell
    rw [getD_set_ne _ hr, getD_set_ne _ (Ne.symm hr),
      List.set_comm _ _ _ hr]

theorem swapCandies_comm (b : Board) (p1 p2 : Position) :
    swapCandies b p1 p2 = swapCandies b p2 p1 := by
  by_cases h : p1 = p2
  · rw [h]
  · have hne : p1.row ≠ p2.row ∨ p1.col ≠ p2.col := by
      by_cases hrr : p1.row = p2.row
      · refine Or.inr fun hcc => h ?_
        cases p1; cases p2
        simp only [Position.mk.injEq]
        exact ⟨hrr, hcc⟩
      · exact Or.inl hrr
    unfold swapCandies
    exact setCell_comm b hne _ _

theorem areAdjacent_right (r c : Nat) :
    areAdjacent ⟨r, c⟩ ⟨r, c + 1⟩ = true := by
  simp [areAdjacent]

theorem areAdjacent_down (r c : Nat) :
    areAdjacent ⟨r, c⟩ ⟨r + 1, c⟩ = true := by
  simp [areAdjacent]

theorem areAdjacent_cases (p1 p2 : Position) (h : areAdjacent p1 p2 = true) :
    (p1.row = p2.row ∧ (p2.col = p1.col + 1 ∨ p1.col = p2.col + 1)) ∨
    (p1.col = p2.col ∧ (p2.row = p1.row + 1 ∨ p1.row = p2.row + 1)) := by
  simp [areAdjacent] at h
  omega

/-- The claim C2: hasValidMoves is true exactly when some adjacent in-bounds
pair of positions can be swapped to produce a non-empty findMatches result;
the right-neighbor and bottom-neighbor trials of the scan cover every
unordered adjacent pair (swapCandies being symmetric in its two positions). -/
theorem hasValidMoves_iff (b : Board) (rows cols : Nat)
    (hrect : Rect b rows cols) :
    hasValidMoves b = true ↔
      ∃ p1 p2 : Position, p1.row < rows ∧ p1.col < cols ∧ p2.row < rows ∧
        p2.col < cols ∧ areAdjacent p1 p2 = true ∧
        findMatches (swapCandies b p1 p2) ≠ [] := by
  obtain ⟨hbl, _, h0l⟩ := hrect
  unfold hasValidMoves
  rw [hbl, h0l, List.any_eq_true]
  constructor
  · rintro ⟨row, hrow, hinner⟩
    rw [List.any_eq_true] at hinner
    obtain ⟨col, hcol, hcond⟩ := hinner
    rw [List.mem_range] at hrow hcol
    rw [Bool.or_eq_true, Bool.and_eq_true, Bool.and_eq_true] at hcond
    rcases hcond with ⟨hlt, hpos⟩ | ⟨hlt, hpos⟩
    · rw [decide_eq_true_eq] at hlt hpos
      exact ⟨⟨row, col⟩, ⟨row, col + 1⟩, hrow, hcol, hrow, hlt,
        areAdjacent_right row col,
        List.length_pos.mp hpos⟩
    · rw [decide_eq_true_eq] at hlt hpos
      exact ⟨⟨row, col⟩, ⟨row + 1, col⟩, hrow, hcol, hlt, hcol,
        areAdjacent_down row col,
        List.length_pos.mp hpos⟩
  · rintro ⟨p1, p2, h1r, h1c, h2r, h2c, hadj, hne⟩
    have hpos : 0 < (findMatches (swapCandies b p1 p2)).length :=
      List.length_pos.mpr hne
    rcases areAdjacent_cases p1 p2 hadj with ⟨hrr, hcc | hcc⟩ | ⟨hcc, hrr | hrr⟩
    · refine ⟨p1.row, List.mem_range.mpr h1r, ?_⟩
      rw [List.any_eq_true]
      refine ⟨p1.col, List.mem_range.mpr h1c, ?_⟩
      rw [Bool.or_eq_true]
      left
      rw [Bool.and_eq_true, decide_eq_true_eq, decide_eq_true_eq]
      refine ⟨by omega, ?_⟩
      rw [show (⟨p1.row, p1.col + 1⟩ : Position) = p2 from by rw [hrr, ← hcc]]
      exact hpos
    · refine ⟨p2.row, List.mem_range.mpr h2r, ?_⟩
      rw [List.any_eq_true]
      refine ⟨p2.col, List.mem_range.mpr h2c, ?_⟩
      rw [Bool.or_eq_true]
      left
      rw [Bool.and_eq_true, decide_eq_true_eq, decide_eq_true_eq]
      refine ⟨by omega, ?_⟩
      rw [show (⟨p2.row, p2.col + 1⟩ : Position) = p1 from by rw [← hrr, ← hcc],
        swapCandies_comm b p2 p1]
      exact hpos
    · refine ⟨p1.row, List.mem_range.mpr h1r, ?_⟩
      rw [List.any_eq_true]
      refine ⟨p1.col, List.mem_range.mpr h1c, ?_⟩
      rw [Bool.or_eq_true]
      right
      rw [Bool.and_eq_true, decide_eq_true_eq, decide_eq_true_eq]
      refine ⟨by omega, ?_⟩
      rw [show (⟨p1.row + 1, p1.col⟩ : Position) = p2 from by rw [hcc, ← hrr]]
      exact hpos
    · refine ⟨p2.row, List.mem_range.mpr h2r, ?_⟩
      rw [List.any_eq_true]
      refine ⟨p2.col, List.mem_range.mpr h2c, ?_⟩
      rw [Bool.or_eq_true]
      right
      rw [Bool.and_eq_true, decide_eq_true_eq, decide_eq_true_eq]
      refine ⟨by omega, ?_⟩
      rw [show (⟨p2.row + 1, p2.col⟩ : Position) = p1 from by rw [← hcc, ← hrr],
        swapCandies_comm b p2 p1]
      exact hpos

/-- Witness for C2: a concrete board with a valid move, recognized through
the equivalence. -/
theorem hasValidMoves_iff_witness :
    hasValidMoves (boardOfTypes
      [[.red, .red, .blue], [.green, .yellow, .red],
        [.blue, .green, .yellow]]) = true :=
  (hasValidMoves_iff _ 3 3 (by decide)).mpr
    ⟨⟨0, 2⟩, ⟨1, 2⟩, by decide, by decide, by decide, by decide, by decide,
      by decide⟩

theorem occIdx_length :
    ∀ (cells : List (Option Candy)) (s : Nat),
      (occIdx s cells).length = (cells.filterMap id).length := by
  intro cells
  induction cells with
  | nil => intro s; rfl
  | cons x rest ih =>
    intro s
    cases x with
    | none => simp [occIdx, List.filterMap_cons, ih]
    | some cd => simp [occIdx, List.filterMap_cons, ih]

theorem occIdx_snd :
    ∀ (cells : List (Option Candy)) (s : Nat),
      (occIdx s cells).map Prod.snd = cells.filterMap id := by
  intro cells
  induction cells with
  | nil => intro s; rfl
  | cons x rest ih =>
    intro s
    cases x with
    | none => simp [occIdx, List.filterMap_cons, ih]
    | some cd => simp [occIdx, List.filterMap_cons, ih]

theorem occIdx_mem :
    ∀ (cells : List (Option Candy)) (s : Nat) (p : Nat × Candy),
      p ∈ occIdx s cells →
        s ≤ p.1 ∧ p.1 - s < cells.length ∧
          cells.getD (p.1 - s) none = some p.2 := by
  intro cells
  induction cells with
  | nil => intro s p h; simp [occIdx] at h
  | cons x rest ih =>
    intro s p h
    cases x with
    | none =>
      obtain ⟨h1, h2, h3⟩ := ih (s + 1) p (by simpa [occIdx] using h)
      have hd : p.1 - s = (p.1 - (s + 1)) + 1 := by omega
      refine ⟨by omega, by simp; omega, ?_⟩
      rw [hd]
      simpa using h3
    | some cd =>
      rw [occIdx] at h
      rcases List.mem_cons.mp h with rfl | h
      · simp
      · obtain ⟨h1, h2, h3⟩ := ih (s + 1) p h
        have hd : p.1 - s = (p.1 - (s + 1)) + 1 := by omega
        refine ⟨by omega, by simp; omega, ?_⟩
        rw [hd]
        simpa using h3

theorem relocate_length (rows m c : Nat) :
    ∀ (l : List (Nat × Candy)) (j : Nat),
      (relocate rows m c j l).length = l.length := by
  intro l
  induction l with
  | nil => intro j; rfl
  | cons p rest ih => intro j; simp [relocate, ih]

theorem relocate_getD (rows m c : Nat) :
    ∀ (l : List (Nat × Candy)) (j i : Nat), i < l.length →
      (relocate rows m c j l).getD i none =
        if (l.getD i (0, dummyCandy)).1 = rows - m + (j + i) then
          some (l.getD i (0, dummyCandy)).2
        else some { (l.getD i (0, dummyCandy)).2 with
          row := rows - m + (j + i), col := c } := by
  intro l
  induction l with
  | nil => intro j i h; simp at h
  | cons p rest ih =>
    intro j i h
    cases i with
    | zero => simp [relocate]
    | succ i =>
      have hlt : i < rest.length := by simpa using h
      have harith : j + 1 + i = j + (i + 1) := by omega
      have := ih (j + 1) i hlt
      rw [harith] at this
      simpa [relocate] using this

theorem relocate_mem_some (rows m c : Nat) :
    ∀ (l : List (Nat × Candy)) (j : Nat) (x : Option Candy),
      x ∈ relocate rows m c j l → ∃ cd, x = some cd := by
  intro l
  induction l with
  | nil => intro j x h; simp [relocate] at h
  | cons p rest ih =>
    intro j x h
    rw [relocate] at h
    rcases List.mem_cons.mp h with rfl | h
    · split_ifs <;> exact ⟨_, rfl⟩
    · exact ih (j + 1) x h

theorem colCells_length (b : Board) (rows c : Nat) :
    (colCells b rows c).length = rows := by
  simp [colCells]

theorem colCells_getD (b : Board) (rows c r : Nat) (hr : r < rows) :
    (colCells b rows c).getD r none = getCell b r c := by
  unfold colCells
  rw [List.getD_eq_getElem?_getD, List.getElem?_map, List.getElem?_range hr]
  rfl

theorem gravityColumn_snd (σ : Nat → Nat) (k rows level c : Nat)
    (cells : List (Option Candy)) :
    (gravityColumn σ k rows level c cells).2 =
      k + (rows - (cells.filterMap id).length) := by
  simp [gravityColumn, occIdx_length]

theorem gravityColumn_fst_length (σ : Nat → Nat) (k rows level c : Nat)
    (cells : List (Option Candy))
    (hm : (cells.filterMap id).length ≤ rows) :
    (gravityColumn σ k rows level c cells).1.length = rows := by
  simp [gravityColumn, relocate_length, occIdx_length]
  omega

theorem gravityColumn_fst_ne_none (σ : Nat → Nat) (k rows level c : Nat)
    (cells : List (Option Candy)) :
    ∀ x ∈ (gravityColumn σ k rows level c cells).1, x ≠ none := by
  intro x hx
  unfold gravityColumn at hx
  rcases List.mem_append.mp hx with h | h
  · obtain ⟨r, _, rfl⟩ := List.mem_map.mp h
    exact Option.some_ne_none _
  · obtain ⟨cd, rfl⟩ := relocate_mem_some _ _ _ _ _ _ h
    exact Option.some_ne_none _

theorem map_range_getD {β : Type} (f : Nat → β) (n r : Nat) (d : β)
    (hr : r < n) : ((List.range n).map f).getD r d = f r := by
  rw [List.getD_eq_getElem?_getD, List.getElem?_map, List.getElem?_range hr]
  rfl

theorem gravityColumn_fst_getD_new (σ : Nat → Nat) (k rows level c : Nat)
    (cells : List (Option Candy)) (r : Nat)
    (hr : r < rows - (cells.filterMap id).length) :
    (gravityColumn σ k rows level c cells).1.getD r none =
      some (createCandy
        (σ (k + (rows - (cells.filterMap id).length - 1 - r))) r c level) := by
  unfold gravityColumn
  rw [occIdx_length]
  have hlen : (((List.range (rows - (cells.filterMap id).length)).map fun r =>
      some (createCandy
        (σ (k + (rows - (cells.filterMap id).length - 1 - r))) r c
        level)).length) = rows - (cells.filterMap id).length := by
    simp
  rw [getD_append_lt _ _ _ (by rw [hlen]; exact hr)]
  exact map_range_getD _ _ _ _ hr

theorem gravityColumn_fst_getD_old (σ : Nat → Nat) (k rows level c : Nat)
    (cells : List (Option Candy)) (j : Nat)
    (hj : j < (cells.filterMap id).length)
    (_hm : (cells.filterMap id).length ≤ rows) :
    (gravityColumn σ k rows level c cells).1.getD
        (rows - (cells.filterMap id).length + j) none =
      (if ((occIdx 0 cells).getD j (0, dummyCandy)).1 =
          rows - (cells.filterMap id).length + j then
        some ((occIdx 0 cells).getD j (0, dummyCandy)).2
      else some { ((occIdx 0 cells).getD j (0, dummyCandy)).2 with
        row := rows - (cells.filterMap id).length + j, col := c }) := by
  have hol : (occIdx 0 cells).length = (cells.filterMap id).length :=
    occIdx_length cells 0
  unfold gravityColumn
  have hlen : (((List.range (rows - (occIdx 0 cells).length)).map fun r =>
      some (createCandy
        (σ (k + (rows - (occIdx 0 cells).length - 1 - r))) r c
        level)).length) = rows - (occIdx 0 cells).length := by
    simp
  rw [getD_append_ge _ _ _ (by rw [hlen, hol]; omega)]
  rw [hlen]
  have hsub : rows - (cells.filterMap id).length + j -
      (rows - (occIdx 0 cells).length) = j := by rw [hol]; omega
  rw [hsub]
  have hjo : j < (occIdx 0 cells).length := by rw [hol]; exact hj
  rw [relocate_getD rows (occIdx 0 cells).length c (occIdx 0 cells) 0 j hjo]
  have hz : (0 : Nat) + j = j := by omega
  rw [hz, hol]

theorem length_setColumnAux (c : Nat) :
    ∀ (cells : List (Option Candy)) (b : Board) (r0 : Nat),
      (setColumnAux c b r0 cells).length = b.length := by
  intro cells
  induction cells with
  | nil => intro b r0; rfl
  | cons v rest ih =>
    intro b r0
    rw [setColumnAux, ih, length_setCell]

theorem rowLen_setColumnAux (c : Nat) :
    ∀ (cells : List (Option Candy)) (b : Board) (r0 r' : Nat),
      ((setColumnAux c b r0 cells).getD r' []).length =
        (b.getD r' []).length := by
  intro cells
  induction cells with
  | nil => intro b r0 r'; rfl
  | cons v rest ih =>
    intro b r0 r'
    rw [setColumnAux, ih, rowLen_setCell]

theorem getCell_setColumnAux_ne_col (c : Nat) :
    ∀ (cells : List (Option Candy)) (b : Board) (r0 r c' : Nat), c' ≠ c →
      getCell (setColumnAux c b r0 cells) r c' = getCell b r c' := by
  intro cells
  induction cells with
  | nil => intro b r0 r c' _; rfl
  | cons v rest ih =>
    intro b r0 r c' hne
    rw [setColumnAux, ih _ _ _ _ hne, getCell_setCell_ne _ (Or.inr fun h => hne h.symm)]

theorem getCell_setColumnAux_lt (c : Nat) :
    ∀ (cells : List (Option Candy)) (b : Board) (r0 r : Nat), r < r0 →
      getCell (setColumnAux c b r0 cells) r c = getCell b r c := by
  intro cells
  induction cells with
  | nil => intro b r0 r _; rfl
  | cons v rest ih =>
    intro b r0 r hlt
    rw [setColumnAux, ih _ _ _ (by omega),
      getCell_setCell_ne _ (Or.inl (by omega))]

theorem getCell_setColumnAux_eq (c : Nat) :
    ∀ (cells : List (Option Candy)) (b : Board) (r0 i : Nat),
      r0 + i < b.length → c < (b.getD (r0 + i) []).length →
      i < cells.length →
      getCell (setColumnAux c b r0 cells) (r0 + i) c = cells.getD i none := by
  intro cells
  induction cells with
  | nil => intro b r0 i _ _ hi; simp at hi
  | cons v rest ih =>
    intro b r0 i hrow hcol hi
    cases i with
    | zero =>
      simp only [Nat.add_zero] at hrow hcol ⊢
      rw [setColumnAux]
      rw [getCell_setColumnAux_lt c rest _ (r0 + 1) r0 (by omega)]
      exact getCell_setCell_self b r0 c v hrow hcol
    | succ i =>
      rw [setColumnAux]
      have harith : r0 + 1 + i = r0 + (i + 1) := by omega
      have h1 : r0 + 1 + i < (setCell b r0 c v).length := by
        rw [length_setCell]; omega
      have h2 : c < ((setCell b r0 c v).getD (r0 + 1 + i) []).length := by
        rw [rowLen_setCell, harith]; exact hcol
      have := ih (setCell b r0 c v) (r0 + 1) i h1 h2 (by simpa using hi)
      rw [harith] at this
      rw [this]
      rfl

theorem colCells_congr {b' b : Board} {rows c : Nat}
    (h : ∀ r, getCell b' r c = getCell b r c) :
    colCells b' rows c = colCells b rows c := by
  unfold colCells
  exact List.map_congr_left fun r _ => h r

theorem newInCol_congr {b' b : Board} {rows c : Nat}
    (h : ∀ r, getCell b' r c = getCell b r c) :
    newInCol b' rows c = newInCol b rows c := by
  unfold newInCol occupiedInCol
  rw [colCells_congr h]

theorem sumNewRange_zero (b : Board) (rows c0 : Nat) :
    sumNewRange b rows c0 0 = 0 := rfl

theorem sumNewRange_succ (b : Board) (rows c0 d : Nat) :
    sumNewRange b rows c0 (d + 1) =
      newInCol b rows c0 + sumNewRange b rows (c0 + 1) d := by
  unfold sumNewRange
  rw [List.range_succ_eq_map, List.map_cons, List.sum_cons, List.map_map]
  congr 1
  refine congrArg List.sum ?_
  refine List.map_congr_left fun x _ => ?_
  simp only [Function.comp]
  rw [show c0 + (x + 1) = c0 + 1 + x from by omega]

theorem sumNewRange_congr {b' b : Board} {rows : Nat} (c0 d : Nat)
    (h : ∀ c, c0 ≤ c → ∀ r, getCell b' r c = getCell b r c) :
    sumNewRange b' rows c0 d = sumNewRange b rows c0 d := by
  unfold sumNewRange
  congr 1
  refine List.map_congr_left fun x _ => ?_
  exact newInCol_congr (h (c0 + x) (by omega))

theorem getCell_setColumn_eq (b : Board) (cells : List (Option Candy))
    (c r : Nat) (hrow : r < b.length) (hcol : c < (b.getD r []).length)
    (hr : r < cells.length) :
    getCell (setColumn b c cells) r c = cells.getD r none := by
  unfold setColumn
  have := getCell_setColumnAux_eq c cells b 0 r (by simpa using hrow)
    (by simpa using hcol) hr
  simpa using this

theorem gravityCols_spec (σ : Nat → Nat) (level rows cols : Nat) :
    ∀ (n c0 : Nat) (b : Board) (k : Nat),
      b.length = rows →
      (∀ r', r' < rows → (b.getD r' []).length = cols) →
      c0 + n ≤ cols →
      (gravityCols σ rows level c0 n b k).1.length = rows ∧
      (∀ r', r' < rows →
        ((gravityCols σ rows level c0 n b k).1.getD r' []).length = cols) ∧
      (∀ r c, (c < c0 ∨ cols ≤ c) →
        getCell (gravityCols σ rows level c0 n b k).1 r c = getCell b r c) ∧
      (∀ r c, r < rows → c0 ≤ c → c < c0 + n →
        getCell (gravityCols σ rows level c0 n b k).1 r c =
          (gravityColumn σ (k + sumNewRange b rows c0 (c - c0)) rows level c
            (colCells b rows c)).1.getD r none) := by
  intro n
  induction n with
  | zero =>
    intro c0 b k hbl hrl _
    refine ⟨hbl, hrl, fun r c _ => rfl, fun r c _ h1 h2 => ?_⟩
    omega
  | succ n ih =>
    intro c0 b k hbl hrl hcn
    have hc0 : c0 < cols := by omega
    have hm0 : ((colCells b rows c0).filterMap id).length ≤ rows := by
      have h1 := List.length_filterMap_le (id) (colCells b rows c0)
      rw [colCells_length] at h1
      exact h1
    have hgl : (gravityColumn σ k rows level c0 (colCells b rows c0)).1.length
        = rows := gravityColumn_fst_length σ k rows level c0 _ hm0
    have hb2l : (setColumn b c0
        (gravityColumn σ k rows level c0 (colCells b rows c0)).1).length
        = rows := by
      unfold setColumn
      rw [length_setColumnAux, hbl]
    have hb2rl : ∀ r', r' < rows →
        ((setColumn b c0
          (gravityColumn σ k rows level c0 (colCells b rows c0)).1).getD r'
            []).length = cols := by
      intro r' hr'
      unfold setColumn
      rw [rowLen_setColumnAux]
      exact hrl r' hr'
    have hb2other : ∀ c, c ≠ c0 → ∀ r,
        getCell (setColumn b c0
          (gravityColumn σ k rows level c0 (colCells b rows c0)).1) r c =
        getCell b r c := by
      intro c hc r
      unfold setColumn
      exact getCell_setColumnAux_ne_col c0 _ b 0 r c hc
    have hstep : gravityCols σ rows level c0 (n + 1) b k =
        gravityCols σ rows level (c0 + 1) n
          (setColumn b c0
            (gravityColumn σ k rows level c0 (colCells b rows c0)).1)
          (gravityColumn σ k rows level c0 (colCells b rows c0)).2 := rfl
    obtain ⟨ihl, ihrl, ihout, ihin⟩ := ih (c0 + 1)
      (setColumn b c0
        (gravityColumn σ k rows level c0 (colCells b rows c0)).1)
      (gravityColumn σ k rows level c0 (colCells b rows c0)).2
      hb2l hb2rl (by omega)
    rw [hstep]
    refine ⟨ihl, ihrl, ?_, ?_⟩
    · intro r c hc
      rw [ihout r c (by omega)]
      exact hb2other c (by omega) r
    · intro r c hr hc1 hc2
      by_cases hcc : c = c0
      · subst hcc
        rw [ihout r c (Or.inl (by omega))]
        rw [getCell_setColumn_eq b _ c r (by omega)
          (by rw [hrl r hr]; omega) (by rw [hgl]; omega)]
        rw [show c - c = 0 from by omega, sumNewRange_zero, Nat.add_zero]
      · have hcgt : c0 + 1 ≤ c := by omega
        rw [ihin r c hr hcgt (by omega)]
        have hcells : colCells
            (setColumn b c0
              (gravityColumn σ k rows level c0 (colCells b rows c0)).1)
            rows c = colCells b rows c :=
          colCells_congr fun r' => hb2other c hcc r'
        rw [hcells]
        have hsum : sumNewRange
            (setColumn b c0
              (gravityColumn σ k rows level c0 (colCells b rows c0)).1)
            rows (c0 + 1) (c - (c0 + 1)) =
            sumNewRange b rows (c0 + 1) (c - (c0 + 1)) :=
          sumNewRange_congr (c0 + 1) (c - (c0 + 1))
            (fun c' hc' r' => hb2other c' (by omega) r')
        rw [hsum]
        have hsnd : (gravityColumn σ k rows level c0 (colCells b rows c0)).2
            = k + newInCol b rows c0 := by
          rw [gravityColumn_snd]
          rfl
        rw [hsnd]
        have harith : c - c0 = (c - (c0 + 1)) + 1 := by omega
        rw [harith, sumNewRange_succ]
        rw [show k + newInCol b rows c0 +
            sumNewRange b rows (c0 + 1) (c - (c0 + 1)) =
            k + (newInCol b rows c0 +
              sumNewRange b rows (c0 + 1) (c - (c0 + 1))) from by omega]

theorem getCell_applyGravity (σ : Nat → Nat) (k : Nat) (b : Board)
    (level rows cols : Nat) (hrect : Rect b rows cols) :
    ∀ r c, r < rows → c < cols →
      getCell (applyGravity σ k b level) r c =
        (gravityColumn σ (colStart b rows k c) rows level c
          (colCells b rows c)).1.getD r none := by
  obtain ⟨hbl, hrowmem, h0l⟩ := hrect
  have hrl : ∀ r', r' < rows → (b.getD r' []).length = cols := by
    intro r' hr'
    rw [← hbl] at hr'
    rw [List.getD_eq_getElem _ _ hr']
    exact hrowmem _ (List.getElem_mem hr')
  unfold applyGravity
  rw [hbl, h0l]
  obtain ⟨_, _, _, hin⟩ := gravityCols_spec σ level rows cols cols 0 b k hbl
    hrl (by omega)
  intro r c hr hc
  rw [hin r c hr (by omega) (by omega)]
  have hsum : sumNewRange b rows 0 (c - 0) =
      ((List.range c).map fun j => newInCol b rows j).sum := by
    rw [Nat.sub_zero]
    unfold sumNewRange
    refine congrArg List.sum (List.map_congr_left fun x _ => ?_)
    rw [Nat.zero_add]
  rw [show k + sumNewRange b rows 0 (c - 0) = colStart b rows k c from by
    unfold colStart
    rw [hsum]]

theorem length_removeMatches :
    ∀ (ms : List Position) (b : Board),
      (removeMatches b ms).length = b.length := by
  intro ms
  induction ms with
  | nil => intro b; rfl
  | cons q rest ih =>
    intro b
    have hstep : removeMatches b (q :: rest) =
        removeMatches (setCell b q.row q.col none) rest := rfl
    rw [hstep, ih, length_setCell]

theorem rowLen_removeMatches :
    ∀ (ms : List Position) (b : Board) (r' : Nat),
      ((removeMatches b ms).getD r' []).length = (b.getD r' []).length := by
  intro ms
  induction ms with
  | nil => intro b r'; rfl
  | cons q rest ih =>
    intro b r'
    have hstep : removeMatches b (q :: rest) =
        removeMatches (setCell b q.row q.col none) rest := rfl
    rw [hstep, ih, rowLen_setCell]

theorem rect_removeMatches {b : Board} {rows cols : Nat}
    (hrect : Rect b rows cols) (ms : List Position) :
    Rect (removeMatches b ms) rows cols := by
  obtain ⟨hbl, hmem, h0⟩ := hrect
  refine ⟨by rw [length_removeMatches, hbl], ?_,
    by rw [rowLen_removeMatches]; exact h0⟩
  intro row hrow
  obtain ⟨i, hi, hroweq⟩ := List.mem_iff_getElem.mp hrow
  have hib : i < b.length := by
    rw [← length_removeMatches ms b]; exact hi
  rw [← hroweq, ← List.getD_eq_getElem _ [] hi, rowLen_removeMatches,
    List.getD_eq_getElem _ _ hib]
  exact hmem _ (List.getElem_mem hib)

/-- The claim C7: removing any set of positions and then applying gravity
yields a grid in which every in-bounds cell is occupied, restoring the
fully-occupied at-rest invariant. -/
theorem removeMatches_applyGravity_noHoles (σ : Nat → Nat) (k : Nat)
    (b : Board) (level rows cols : Nat) (ms : List Position)
    (hrect : Rect b rows cols) :
    ∀ r c, r < rows → c < cols →
      getCell (applyGravity σ k (removeMatches b ms) level) r c ≠ none := by
  have hrect2 : Rect (removeMatches b ms) rows cols := rect_removeMatches hrect ms
  intro r c hr hc
  rw [getCell_applyGravity σ k _ level rows cols hrect2 r c hr hc]
  have hm : ((colCells (removeMatches b ms) rows c).filterMap id).length ≤
      rows := by
    have h1 := List.length_filterMap_le id
      (colCells (removeMatches b ms) rows c)
    rw [colCells_length] at h1
    exact h1
  have hlen := gravityColumn_fst_length σ
    (colStart (removeMatches b ms) rows k c) rows level c _ hm
  rw [List.getD_eq_getElem _ _ (by rw [hlen]; exact hr)]
  exact gravityColumn_fst_ne_none σ _ rows level c _ _ (List.getElem_mem _)

/-- Witness for C7 on a concrete removal. -/
theorem removeMatches_applyGravity_noHoles_witness :
    getCell (applyGravity (fun _ => 0) 0
      (removeMatches rowRedB [⟨0, 0⟩]) 1) 0 0 ≠ none :=
  removeMatches_applyGravity_noHoles (fun _ => 0) 0 rowRedB 1 3 3 [⟨0, 0⟩]
    (by decide) 0 0 (by decide) (by decide)

theorem occIdx_getD_snd :
    ∀ (cells : List (Option Candy)) (s j : Nat),
      j < (cells.filterMap id).length →
      ((occIdx s cells).getD j (0, dummyCandy)).2 =
        (cells.filterMap id).getD j dummyCandy := by
  intro cells
  induction cells with
  | nil => intro s j h; simp at h
  | cons x rest ih =>
    intro s j h
    cases x with
    | none =>
      rw [show occIdx s (none :: rest) = occIdx (s + 1) rest from rfl]
      rw [show (none :: rest).filterMap id = rest.filterMap id from rfl]
      exact ih (s + 1) j (by simpa using h)
    | some cd =>
      rw [show occIdx s (some cd :: rest) = (s, cd) :: occIdx (s + 1) rest
        from rfl]
      rw [show (some cd :: rest).filterMap id = cd :: rest.filterMap id
        from rfl]
      cases j with
      | zero => rfl
      | succ j => exact ih (s + 1) j (by simpa using h)

theorem rect_rowlens {b : Board} {rows cols : Nat} (hrect : Rect b rows cols) :
    ∀ r', r' < rows → (b.getD r' []).length = cols := by
  obtain ⟨hbl, hrowmem, _⟩ := hrect
  intro r' hr'
  rw [← hbl] at hr'
  rw [List.getD_eq_getElem _ _ hr']
  exact hrowmem _ (List.getElem_mem hr')

theorem applyGravity_lens (σ : Nat → Nat) (k : Nat) (b : Board)
    (level rows cols : Nat) (hrect : Rect b rows cols) :
    (applyGravity σ k b level).length = rows ∧
    ∀ r', r' < rows → ((applyGravity σ k b level).getD r' []).length = cols := by
  obtain ⟨hbl, hrowmem, h0l⟩ := hrect
  have hrl := rect_rowlens ⟨hbl, hrowmem, h0l⟩
  unfold applyGravity
  rw [hbl, h0l]
  obtain ⟨h1, h2, _, _⟩ := gravityCols_spec σ level rows cols cols 0 b k hbl
    hrl (by omega)
  exact ⟨h1, h2⟩

theorem rect_applyGravity (σ : Nat → Nat) (k : Nat) (b : Board)
    (level rows cols : Nat) (hrect : Rect b rows cols) :
    Rect (applyGravity σ k b level) rows cols := by
  obtain ⟨h1, h2⟩ := applyGravity_lens σ k b level rows cols hrect
  refine ⟨h1, ?_, ?_⟩
  · intro row hrow
    obtain ⟨i, hi, hroweq⟩ := List.mem_iff_getElem.mp hrow
    have hir : i < rows := by rw [← h1]; exact hi
    rw [← hroweq, ← List.getD_eq_getElem _ [] hi]
    exact h2 i hir
  · rcases Nat.eq_zero_or_pos rows with h0r | h0r
    · have hc0 : cols = 0 := by
        obtain ⟨hbl, _, h0l⟩ := hrect
        have hbe : b = [] := List.length_eq_zero.mp (by rw [hbl, h0r])
        rw [hbe] at h0l
        simpa using h0l.symm
    
      rw [List.getD_eq_default _ _ (by rw [h1]; omega), hc0]
      rfl
    · exact h2 0 h0r

theorem candy_update_eq (cd : Candy) {r c : Nat} (h1 : cd.row = r)
    (h2 : cd.col = c) : ({ cd with row := r, col := c } : Candy) = cd := by
  subst h1
  subst h2
  rfl

/-- The claim C6: on a rectangular, coordinate-consistent board, applyGravity
processes columns independently: the surviving tiles of each column are
compacted at the bottom in their original top-to-bottom order with row/col
fields equal to their new cells (the result is again coordinate-consistent
and rectangular), and the cells above the compacted stack hold exactly the
freshly factory-generated tiles, at the draw indices the refill loop
consumes. -/
theorem applyGravity_spec (σ : Nat → Nat) (k : Nat) (b : Board)
    (level rows cols : Nat) (hrect : Rect b rows cols)
    (hcons : Consistent b) :
    Rect (applyGravity σ k b level) rows cols ∧
    Consistent (applyGravity σ k b level) ∧
    ∀ c, c < cols →
      (∀ j, j < (occupiedInCol b rows c).length →
        getCell (applyGravity σ k b level)
            (rows - (occupiedInCol b rows c).length + j) c =
          some { (occupiedInCol b rows c).getD j dummyCandy with
            row := rows - (occupiedInCol b rows c).length + j, col := c }) ∧
      (∀ r, r < rows - (occupiedInCol b rows c).length →
        getCell (applyGravity σ k b level) r c =
          some (createCandy
            (σ (colStart b rows k c +
              (rows - (occupiedInCol b rows c).length - 1 - r))) r c
            level)) := by
  have hmF : ∀ c, (occupiedInCol b rows c).length ≤ rows := by
    intro c
    have h1 := List.length_filterMap_le id (colCells b rows c)
    rw [colCells_length] at h1
    exact h1
  have hcol : ∀ c, c < cols →
      (∀ j, j < (occupiedInCol b rows c).length →
        getCell (applyGravity σ k b level)
            (rows - (occupiedInCol b rows c).length + j) c =
          some { (occupiedInCol b rows c).getD j dummyCandy with
            row := rows - (occupiedInCol b rows c).length + j, col := c }) ∧
      (∀ r, r < rows - (occupiedInCol b rows c).length →
        getCell (applyGravity σ k b level) r c =
          some (createCandy
            (σ (colStart b rows k c +
              (rows - (occupiedInCol b rows c).length - 1 - r))) r c
            level)) := by
    intro c hc
    constructor
    · intro j hj
      have hridx : rows - (occupiedInCol b rows c).length + j < rows := by
        have := hmF c
        omega
      rw [getCell_applyGravity σ k b level rows cols hrect _ c hridx hc]
      rw [show occupiedInCol b rows c = (colCells b rows c).filterMap id
        from rfl]
      rw [gravityColumn_fst_getD_old σ (colStart b rows k c) rows level c
        (colCells b rows c) j hj (hmF c)]
      have hjo : j < (occIdx 0 (colCells b rows c)).length := by
        rw [occIdx_length]
        exact hj
      have hmem : (occIdx 0 (colCells b rows c)).getD j (0, dummyCandy) ∈
          occIdx 0 (colCells b rows c) := by
        rw [List.getD_eq_getElem _ _ hjo]
        exact List.getElem_mem hjo
      obtain ⟨_, hlt, hcd⟩ := occIdx_mem _ 0 _ hmem
      rw [Nat.sub_zero] at hlt hcd
      rw [colCells_length] at hlt
      rw [colCells_getD b rows c _ hlt] at hcd
      obtain ⟨hrw, hcw⟩ := hcons _ c _ hcd
      have hsnd := occIdx_getD_snd (colCells b rows c) 0 j hj
      split_ifs with hidx
      · rw [← hsnd, candy_update_eq _ (hrw.trans hidx) hcw]
      · rw [← hsnd]
    · intro r hr
      rw [getCell_applyGravity σ k b level rows cols hrect r c
        (by have := hmF c; omega) hc]
      exact gravityColumn_fst_getD_new σ (colStart b rows k c) rows level c
        (colCells b rows c) r hr
  have hlens := applyGravity_lens σ k b level rows cols hrect
  have hconsOut : Consistent (applyGravity σ k b level) := by
    intro r c cd h
    by_cases hrc : r < rows ∧ c < cols
    · obtain ⟨hr, hc⟩ := hrc
      by_cases hfresh : r < rows - (occupiedInCol b rows c).length
      · rw [(hcol c hc).2 r hfresh] at h
        refine ⟨?_, ?_⟩ <;> rw [← Option.some.inj h] <;> rfl
      · have hj : r - (rows - (occupiedInCol b rows c).length) <
            (occupiedInCol b rows c).length := by
          have := hmF c
          omega
        have heq := (hcol c hc).1 _ hj
        rw [show rows - (occupiedInCol b rows c).length +
            (r - (rows - (occupiedInCol b rows c).length)) = r from by
              have := hmF c
              omega] at heq
        rw [heq] at h
        refine ⟨?_, ?_⟩ <;> rw [← Option.some.inj h]
    · exfalso
      have hnone : getCell (applyGravity σ k b level) r c = none := by
        by_cases hr : r < rows
        · have hcge : cols ≤ c := by
            rcases Nat.lt_or_ge c cols with h1 | h1
            · exact absurd ⟨hr, h1⟩ hrc
            · exact h1
          unfold getCell
          rw [List.getD_eq_default _ _ (by rw [hlens.2 r hr]; omega)]
        · unfold getCell
          rw [List.getD_eq_default (applyGravity σ k b level) []
            (by rw [hlens.1]; omega)]
          rfl
      rw [hnone] at h
      simp at h
  exact ⟨rect_applyGravity σ k b level rows cols hrect, hconsOut, hcol⟩

theorem consistent_of_consistentB {b : Board} (h : consistentB b = true) :
    Consistent b := by
  intro r c cd hcell
  by_cases hr : r < b.length
  · by_cases hc : c < (b.getD r []).length
    · unfold consistentB at h
      rw [List.all_eq_true] at h
      have h1 := h r (List.mem_range.mpr hr)
      rw [List.all_eq_true] at h1
      have h2 := h1 c (List.mem_range.mpr hc)
      rw [hcell] at h2
      exact of_decide_eq_true (by simpa using h2)
    · exfalso
      unfold getCell at hcell
      rw [List.getD_eq_default _ _ (Nat.le_of_not_lt hc)] at hcell
      simp at hcell
  · exfalso
    unfold getCell at hcell
    rw [List.getD_eq_default _ _ (Nat.le_of_not_lt hr)] at hcell
    simp at hcell

/-- Witness for C6: gravity on a concrete 2×2 board with holes, through the
specification theorem. -/
theorem applyGravity_spec_witness :
    Rect (applyGravity (fun _ => 0) 0 bW6 1) 2 2 :=
  (applyGravity_spec (fun _ => 0) 0 bW6 1 2 2 (by decide)
    (consistent_of_consistentB (by decide))).1

theorem getRow_append_last (prev : Board) (X : List (Option Candy)) (r : Nat) :
    (prev ++ [X]).getD r [] =
      if r < prev.length then prev.getD r []
      else if r = prev.length then X else [] := by
  rcases Nat.lt_trichotomy r prev.length with h | h | h
  · rw [if_pos h, getD_append_lt _ _ _ h]
  · subst h
    rw [if_neg (lt_irrefl _), if_pos rfl,
      getD_append_ge _ _ _ (Nat.le_refl _), Nat.sub_self]
    rfl
  · rw [if_neg (by omega), if_neg (by omega), getD_append_ge _ _ _ (by omega)]
    apply List.getD_eq_default
    simp
    omega

theorem cellType_append_emptyRow (prev : Board) (r c : Nat) :
    cellType (prev ++ [[]]) r c = cellType prev r c := by
  unfold cellType getCell
  rw [getRow_append_last]
  split_ifs with h1 h2
  · rfl
  · rw [List.getD_eq_default prev _ (by omega)]
  · rw [List.getD_eq_default prev _ (by omega)]

theorem cellType_append_snocCell (prev : Board) (cur : List (Option Candy))
    (x : Option Candy) (r c : Nat) :
    cellType (prev ++ [cur ++ [x]]) r c =
      if r = prev.length ∧ c = cur.length then x.map Candy.type
      else cellType (prev ++ [cur]) r c := by
  unfold cellType getCell
  rw [getRow_append_last, getRow_append_last]
  by_cases h1 : r < prev.length
  · rw [if_pos h1, if_pos h1, if_neg (by omega)]
  · by_cases h2 : r = prev.length
    · rw [if_neg h1, if_neg h1, if_pos h2, if_pos h2]
      by_cases h3 : c < cur.length
      · rw [if_neg (by omega), getD_append_lt _ _ _ h3]
      · by_cases h4 : c = cur.length
        · rw [if_pos ⟨h2, h4⟩]
          subst h4
          rw [getD_append_ge _ _ _ (Nat.le_refl _), Nat.sub_self]
          rfl
        · rw [if_neg (by omega),
            List.getD_eq_default (cur ++ [x]) _ (by simp; omega),
            List.getD_eq_default cur _ (by omega)]
    · rw [if_neg h1, if_neg h1, if_neg h2, if_neg h2, if_neg (by omega)]

theorem checkWouldCreateMatch_eq_false {b : Board} {candy : Candy}
    {row col : Nat} (h : checkWouldCreateMatch b candy row col = false) :
    hRunLeft b row candy.type col +
      hRunFrom b row candy.type (b.getD row []).length (col + 1) < 2 ∧
    vRunUp b col candy.type row +
      vRunFrom b col candy.type b.length (row + 1) < 2 := by
  unfold checkWouldCreateMatch at h
  split_ifs at h with h1
  constructor
  · omega
  · by_contra hcon
    have hd : decide (3 ≤ 1 + vRunUp b col candy.type row +
        vRunFrom b col candy.type b.length (row + 1)) = true :=
      decide_eq_true (by omega)
    rw [hd] at h
    exact Bool.noConfusion h

theorem windowFree_nil : windowFree ([] : Board) := by
  intro r c t
  constructor <;> rintro ⟨h, _, _⟩ <;> simp [cellType, getCell] at h

theorem windowFree_of_cellType_eq {b' b : Board}
    (h : ∀ r c, cellType b' r c = cellType b r c) (hw : windowFree b) :
    windowFree b' := by
  intro r c t
  constructor <;> rintro ⟨h1, h2, h3⟩
  · exact (hw r c t).1 ⟨(h r c).symm.trans h1, (h r (c + 1)).symm.trans h2,
      (h r (c + 2)).symm.trans h3⟩
  · exact (hw r c t).2 ⟨(h r c).symm.trans h1, (h (r + 1) c).symm.trans h2,
      (h (r + 2) c).symm.trans h3⟩

theorem windowFree_snoc (prev : Board) (cur : List (Option Candy))
    (candy : Candy) (hwf : windowFree (prev ++ [cur]))
    (hchk : checkWouldCreateMatch (prev ++ [cur]) candy prev.length
      cur.length = false) :
    windowFree (prev ++ [cur ++ [some candy]]) := by
  obtain ⟨hH, hV⟩ := checkWouldCreateMatch_eq_false hchk
  have hrow_none : ∀ c', cur.length ≤ c' →
      cellType (prev ++ [cur]) prev.length c' = none := by
    intro c' hc'
    unfold cellType getCell
    rw [getRow_append_last, if_neg (lt_irrefl _), if_pos rfl,
      List.getD_eq_default _ _ hc']
    rfl
  have hbelow_none : ∀ r' c', prev.length < r' →
      cellType (prev ++ [cur]) r' c' = none := by
    intro r' c' hr'
    unfold cellType getCell
    rw [getRow_append_last, if_neg (by omega), if_neg (by omega)]
    rfl
  intro r c t
  constructor
  · rintro ⟨h1, h2, h3⟩
    rw [cellType_append_snocCell] at h1 h2 h3
    by_cases hr : r = prev.length
    · subst hr
      by_cases hc2 : c + 2 = cur.length
      · rw [if_pos ⟨rfl, hc2⟩] at h3
        have ht : candy.type = t := by simpa using h3
        rw [if_neg (by omega)] at h1
        rw [if_neg (by omega)] at h2
        rw [← ht] at h1 h2
        have hge : 2 ≤ hRunLeft (prev ++ [cur]) prev.length candy.type
            cur.length := by
          rw [← hc2]
          simp [hRunLeft, h1, h2]
        omega
      · by_cases hcc : c = cur.length
        · rw [if_neg (by omega)] at h2
          rw [hrow_none (c + 1) (by omega)] at h2
          exact Option.noConfusion h2
        · by_cases hc1 : c + 1 = cur.length
          · rw [if_neg (by omega)] at h3
            rw [hrow_none (c + 2) (by omega)] at h3
            exact Option.noConfusion h3
          · rw [if_neg (by omega)] at h1
            rw [if_neg (by omega)] at h2
            rw [if_neg (by omega)] at h3
            exact (hwf prev.length c t).1 ⟨h1, h2, h3⟩
    · rw [if_neg (by omega)] at h1
      rw [if_neg (by omega)] at h2
      rw [if_neg (by omega)] at h3
      exact (hwf r c t).1 ⟨h1, h2, h3⟩
  · rintro ⟨h1, h2, h3⟩
    rw [cellType_append_snocCell] at h1 h2 h3
    by_cases hc : c = cur.length
    · subst hc
      by_cases hr2 : r + 2 = prev.length
      · rw [if_pos ⟨hr2, rfl⟩] at h3
        have ht : candy.type = t := by simpa using h3
        rw [if_neg (by omega)] at h1
        rw [if_neg (by omega)] at h2
        rw [← ht] at h1 h2
        have hge : 2 ≤ vRunUp (prev ++ [cur]) cur.length candy.type
            prev.length := by
          rw [← hr2]
          simp [vRunUp, h1, h2]
        omega
      · by_cases hrr : r = prev.length
        · rw [if_neg (by omega)] at h2
          rw [hbelow_none (r + 1) cur.length (by omega)] at h2
          exact Option.noConfusion h2
        · by_cases hr1 : r + 1 = prev.length
          · rw [if_neg (by omega)] at h3
            rw [hbelow_none (r + 2) cur.length (by omega)] at h3
            exact Option.noConfusion h3
          · rw [if_neg (by omega)] at h1
            rw [if_neg (by omega)] at h2
            rw [if_neg (by omega)] at h3
            exact (hwf r cur.length t).2 ⟨h1, h2, h3⟩
    · rw [if_neg (by omega)] at h1
      rw [if_neg (by omega)] at h2
      rw [if_neg (by omega)] at h3
      exact (hwf r c t).2 ⟨h1, h2, h3⟩

theorem buildRowAux_ok_mono (σ : Nat → Nat) (level : Nat) (prev : Board) :
    ∀ (n : Nat) (cur : List (Option Candy)) (k : Nat) (ok : Bool),
      (buildRowAux σ level prev cur k ok n).2.2 = true → ok = true := by
  intro n
  induction n with
  | zero => intro cur k ok h; exact h
  | succ n ih =>
    intro cur k ok h
    have h2 := ih _ _ _ h
    rw [Bool.and_eq_true] at h2
    exact h2.1

theorem buildRowAux_windowFree (σ : Nat → Nat) (level : Nat) (prev : Board) :
    ∀ (n : Nat) (cur : List (Option Candy)) (k : Nat) (ok : Bool),
      (buildRowAux σ level prev cur k ok n).2.2 = true →
      windowFree (prev ++ [cur]) →
      windowFree (prev ++ [(buildRowAux σ level prev cur k ok n).1]) := by
  intro n
  induction n with
  | zero => intro cur k ok _ hwf; exact hwf
  | succ n ih =>
    intro cur k ok hok hwf
    have hokmid : (ok && !checkWouldCreateMatch (prev ++ [cur])
        (placeCandy σ (prev ++ [cur]) prev.length cur.length level k).1
        prev.length cur.length) = true :=
      buildRowAux_ok_mono σ level prev n _ _ _ hok
    have hchk : checkWouldCreateMatch (prev ++ [cur])
        (placeCandy σ (prev ++ [cur]) prev.length cur.length level k).1
        prev.length cur.length = false := by
      rw [Bool.and_eq_true] at hokmid
      have h3 := hokmid.2
      rw [Bool.not_eq_true'] at h3
      exact h3
    exact ih _ _ _ hok (windowFree_snoc prev cur _ hwf hchk)

theorem buildBoardAux_ok_mono (σ : Nat → Nat) (level cols : Nat) :
    ∀ (n : Nat) (prev : Board) (k : Nat) (ok : Bool),
      (buildBoardAux σ level cols prev k ok n).2.2 = true → ok = true := by
  intro n
  induction n with
  | zero => intro prev k ok h; exact h
  | succ n ih =>
    intro prev k ok h
    have h2 := ih _ _ _ h
    exact buildRowAux_ok_mono σ level prev cols [] k ok h2

theorem buildBoardAux_windowFree (σ : Nat → Nat) (level cols : Nat) :
    ∀ (n : Nat) (prev : Board) (k : Nat) (ok : Bool),
      (buildBoardAux σ level cols prev k ok n).2.2 = true →
      windowFree prev →
      windowFree (buildBoardAux σ level cols prev k ok n).1 := by
  intro n
  induction n with
  | zero => intro prev k ok _ hwf; exact hwf
  | succ n ih =>
    intro prev k ok hok hwf
    have hrowok : (buildRowAux σ level prev [] k ok cols).2.2 = true :=
      buildBoardAux_ok_mono σ level cols n _ _ _ hok
    have hwf2 : windowFree (prev ++ [[]]) :=
      windowFree_of_cellType_eq (fun r c => cellType_append_emptyRow prev r c)
        hwf
    have hwf3 := buildRowAux_windowFree σ level prev cols [] k ok hrowok hwf2
    exact ih _ _ _ hok hwf3

theorem foldl_id {α β : Type} (g : β → α → β) (l : List α)
    (hg : ∀ acc x, x ∈ l → g acc x = acc) :
    ∀ acc, l.foldl g acc = acc := by
  induction l with
  | nil => intro acc; rfl
  | cons x rest ih =>
    intro acc
    rw [List.foldl_cons, hg acc x (List.mem_cons.mpr (Or.inl rfl))]
    exact ih (fun a y hy => hg a y (List.mem_cons.mpr (Or.inr hy))) acc

theorem findMatches_eq_nil_of_windowFree (b : Board) (h : windowFree b) :
    findMatches b = [] := by
  have hW : ∀ cols r c, hWindow b cols r c = [] := by
    intro cols r c
    cases hcell : cellType b r c with
    | none => exact hWindow_eq_of_none hcell
    | some t =>
      rw [hWindow_eq_of_some hcell, if_neg]
      rintro ⟨hh1, hh2⟩
      exact (h r c t).1 ⟨hcell, hh1, hh2⟩
  have hVw : ∀ rows r c, vWindow b rows r c = [] := by
    intro rows r c
    cases hcell : cellType b r c with
    | none => exact vWindow_eq_of_none hcell
    | some t =>
      rw [vWindow_eq_of_some hcell, if_neg]
      rintro ⟨hh1, hh2⟩
      exact (h r c t).2 ⟨hcell, hh1, hh2⟩
  unfold findMatches
  rw [foldl_id _ _ (fun acc c _ =>
    foldl_id _ _ (fun acc2 r _ => by rw [hVw]; rfl) acc)]
  rw [foldl_id _ _ (fun acc r _ =>
    foldl_id _ _ (fun acc2 c _ => by rw [hW]; rfl) acc)]

/-- The claim C1 (amended): whenever board generation never exhausted the
10-attempt regeneration cap — i.e. every accepted candidate passed
checkWouldCreateMatch — findMatches on the generated initial board is
empty.  (As stated originally the claim fails: the cap can force acceptance
of a matching tile even at palette width 4, see the counterexample.) -/
theorem createInitialBoard_noInitialMatches (σ : Nat → Nat)
    (rows cols level : Nat)
    (h : createInitialBoardOk σ rows cols level = true) :
    findMatches (createInitialBoard σ rows cols level) = [] := by
  apply findMatches_eq_nil_of_windowFree
  exact buildBoardAux_windowFree σ level cols rows [] 0 true h windowFree_nil

/-- Witness for C1: a concrete 3×3 level-1 generation run in which every
candidate passed the check, and whose board indeed carries no match. -/
theorem createInitialBoard_noInitialMatches_witness :
    createInitialBoardOk (fun k => k) 3 3 1 = true ∧
      findMatches (createInitialBoard (fun k => k) 3 3 1) = [] :=
  ⟨by decide, createInitialBoard_noInitialMatches (fun k => k) 3 3 1
    (by decide)⟩

/-- Counterexample to C1 as stated: with rows = cols = 3 ≥ 3, level = 1 ≥ 1
and palette width 4, the constant randomness outcome exhausts the 10-attempt
cap on every regeneration and produces a monochromatic board, on which
findMatches is non-empty. -/
theorem createInitialBoard_matchPossible :
    3 ≤ 3 ∧ 1 ≤ 1 ∧ 4 ≤ (availableTypes 1).length ∧
      findMatches (createInitialBoard (fun _ => 0) 3 3 1) ≠ [] := by
  decide

/-- The claim C3 (amended, spec-modelled): randomizeBoard returns either a
reassigned grid on which hasValidMoves holds (the first such within the
attempt cap) or, when every attempt fails, the fallback Board Generator
result — which is not itself guaranteed to have a valid move (see the
counterexample). -/
theorem randomizeBoard_validOrFallback (σ : Nat → Nat) (k : Nat) (b : Board)
    (level : Nat) :
    hasValidMoves (randomizeBoard σ k b level) = true ∨
    ∃ kf, randomizeBoard σ k b level =
      createInitialBoardFrom σ kf b.length (b.getD 0 []).length level := by
  have hmain : ∀ (n k0 : Nat),
      hasValidMoves (randomizeBoardAux σ b level k0 n) = true ∨
      ∃ kf, randomizeBoardAux σ b level k0 n =
        createInitialBoardFrom σ kf b.length (b.getD 0 []).length level := by
    intro n
    induction n with
    | zero => intro k0; exact Or.inr ⟨k0, rfl⟩
    | succ n ih =>
      intro k0
      have hstep : randomizeBoardAux σ b level k0 (n + 1) =
          if hasValidMoves (reassignTypes σ k0 b level).1 then
            (reassignTypes σ k0 b level).1
          else randomizeBoardAux σ b level (reassignTypes σ k0 b level).2 n :=
        rfl
      by_cases hv : hasValidMoves (reassignTypes σ k0 b level).1 = true
      · left
        rw [hstep, if_pos hv]
        exact hv
      · rw [hstep, if_neg hv]
        exact ih _
  exact hmain 10 k

/-- Counterexample to C3 as stated: on the deadlocked latin-square board,
with a randomness outcome that reproduces a deadlocked latin square on every
reassignment attempt and on the fallback generation, randomizeBoard returns
a board that still has no valid move. -/
theorem randomizeBoard_noGuarantee :
    hasValidMoves latinB = false ∧
      hasValidMoves (randomizeBoard sigmaLatin 0 latinB 1) = false := by
  decide
